import Mathlib

/-!
# Verification of the huawei_gadget_strava workout-conversion core

Shallow embedding of the swim-segment repair engine
(`huawei_sync/analyze_swimming.py`), the GPS distance/speed derivation and
heart-rate alignment (`huawei_sync/analyze_cycling.py`), the indoor-cycling
speed clamping (`huawei_sync/analyze_indoor_cycling.py`), and the heart-rate
cleaning steps of the three analyzers.

Python floats are modelled as exact rationals (`ℚ`) where the computation is
pure arithmetic, and as reals (`ℝ`) where trigonometric functions occur
(haversine).  Pandas DataFrame rows are modelled as structures holding the
columns the analyzed code reads.
-/

/-- Python's built-in `round` (round-half-to-even) on a rational, as used by
`fix_collapsed_start_lengths` via `int(round(...))`.  Ties are broken towards
the even integer. -/
def pyRound (q : ℚ) : ℤ :=
  let f := ⌊q⌋
  if q - f < 1/2 then f
  else if 1/2 < q - f then f + 1
  else if Even f then f else f + 1

/-- `pandas.Series.median`: mean of the middle value(s) of the sorted list.
Returns 0 on the empty list (the callers guard against that case). -/
def median (l : List ℚ) : ℚ :=
  let s := List.insertionSort (· ≤ ·) l
  let n := s.length
  if n % 2 = 1 then s.getD (n / 2) 0
  else (s.getD (n / 2 - 1) 0 + s.getD (n / 2) 0) / 2

/-- `pandas.Series.quantile(q)` with the default linear interpolation:
for the sorted values `x₀ … x_{n-1}` and position `h = (n-1)·q`, the result is
`x_⌊h⌋ + (h - ⌊h⌋) · (x_⌈h⌉ - x_⌊h⌋)`.  Returns 0 on the empty list. -/
def quantileLinear (q : ℚ) (l : List ℚ) : ℚ :=
  let s := List.insertionSort (· ≤ ·) l
  let n := s.length
  if n = 0 then 0
  else
    let h : ℚ := ((n - 1 : ℕ) : ℚ) * q
    let lo := Int.toNat ⌊h⌋
    let hi := Int.toNat ⌈h⌉
    s.getD lo 0 + (h - (lo : ℚ)) * (s.getD hi 0 - s.getD lo 0)

/-- The positive part of a rational, `max 0 x` written as the guard used by the
rest-row emission (`if value > 0 then value else nothing`). -/
def posClip (x : ℚ) : ℚ := if 0 < x then x else 0

/-! ## Swim segments (`HUAWEI_WORKOUT_SWIM_SEGMENTS_SAMPLE.csv` rows)

One row of the de-duplicated, index-sorted segment DataFrame, restricted to
the columns the repair engine reads and writes: `TIME`, `DISTANCE`, `STROKES`,
`SWIM_TYPE`. -/

structure Seg where
  time : ℚ
  distance : ℚ
  strokes : ℤ
  swimType : ℤ
deriving DecidableEq, Repr, Inhabited

/-- `df_segment_data[df_segment_data["DISTANCE"] > 0]`: the active (swum)
segments, in order. -/
def activeOf (segs : List Seg) : List Seg := segs.filter (fun s => 0 < s.distance)

/-- `df["TIME"].sum()` over a segment list. -/
def sumTime (segs : List Seg) : ℚ := (segs.map Seg.time).sum

/-- `df["DISTANCE"].sum()` over a segment list. -/
def sumDist (segs : List Seg) : ℚ := (segs.map Seg.distance).sum

/-! ## `fix_collapsed_start_lengths` (analyze_swimming.py lines 161-214) -/

/-- Position of the first active segment in the full segment list
(the `index` column of `active_segments.iloc[0]` after `reset_index()`). -/
def firstActiveIdx (segs : List Seg) : ℕ := segs.findIdx (fun s => 0 < s.distance)

/-- `comparison_window = active_segments.iloc[1:9]`. -/
def comparisonWindow (segs : List Seg) : List Seg := ((activeOf segs).drop 1).take 8

/-- `comparison_times = comparison_window["TIME"]; comparison_times[comparison_times > 0]`. -/
def comparisonTimes (segs : List Seg) : List ℚ :=
  ((comparisonWindow segs).map Seg.time).filter (fun t => 0 < t)

/-- `inflated_threshold = max(45.0, typical_length_time * 2.2)` where
`typical_length_time = comparison_times.median()`. -/
def inflatedThreshold (segs : List Seg) : ℚ :=
  max 45 (median (comparisonTimes segs) * (11/5))

/-- The emission loop
`for index, (_, row) in enumerate(df_segment_data.iterrows())`: every row is
copied through except the row at position `g`, which is replaced by the three
repaired rows. -/
def collapsedRows (g : ℕ) (triple : List Seg) : ℕ → List Seg → List Seg
  | _, [] => []
  | i, row :: rest =>
      (if i ≠ g then [row] else triple) ++ collapsedRows g triple (i+1) rest

/-- The repaired segment list in the firing case: the first active segment
(at global position `first_global_index`, with time `T`, distance `D` and
strokes `S`) is replaced by three rows with times `T/3, T/3, T - 2·(T/3)`,
distance `D` each, and strokes `round(S/3), round(S/3), round(S - 2·round(S/3))`
clamped at 0. -/
def collapsedSplit (segs : List Seg) : List Seg :=
  let firstActive := (activeOf segs).headI
  let g := firstActiveIdx segs
  let firstTime := firstActive.time
  let firstDistance := firstActive.distance
  let template := segs.getD g default
  let r := pyRound ((template.strokes : ℚ) / 3)
  collapsedRows g
    [{ template with
        time := firstTime/3
        distance := firstDistance
        strokes := max 0 r },
     { template with
        time := firstTime/3
        distance := firstDistance
        strokes := max 0 r },
     { template with
        time := firstTime - 2*(firstTime/3)
        distance := firstDistance
        strokes := max 0 (pyRound ((template.strokes : ℚ) - 2*(r : ℚ))) }]
    0 segs

/-- `fix_collapsed_start_lengths(df_segment_data, pool_length)`: the ladder of
early returns of the Python function, each returning the input unchanged with
flag `False`; the final branch returns the split list with flag `True`. -/
def fix_collapsed_start_lengths (segs : List Seg) (poolLength : ℚ) : List Seg × Bool :=
  if (activeOf segs).length < 4 then (segs, false)
  else if (activeOf segs).headI.distance ≤ 0 ∨
      poolLength * (3/2) < (activeOf segs).headI.distance then (segs, false)
  else if comparisonWindow segs = [] then (segs, false)
  else if comparisonTimes segs = [] then (segs, false)
  else if (activeOf segs).headI.time < inflatedThreshold segs then (segs, false)
  else (collapsedSplit segs, true)

/-! ## `detect_sprint_session` (analyze_swimming.py lines 38-76) -/

/-- `typical_length_time`: the 0.6 quantile of the positive times, falling back
to the median when that quantile is ≤ 0 (lines 51-53 / 93-95). -/
def typicalLengthTime (reference : List ℚ) : ℚ :=
  let t := quantileLinear (3/5) reference
  if t ≤ 0 then median reference else t

/-- `long_threshold = max(typical_length_time * 1.9, typical_length_time + 25.0)`. -/
def longThreshold (typical : ℚ) : ℚ := max (typical * (19/10)) (typical + 25)

def detect_sprint_session (segs : List Seg) (workoutTotalTime : Option ℚ) : Bool :=
  let active := activeOf segs
  let activeCount := active.length
  if activeCount < 8 ∨ activeCount % 4 ≠ 0 then false
  else
    let times := active.map Seg.time
    let reference := times.filter (fun t => 0 < t)
    if reference = [] then false
    else
      let typical := typicalLengthTime reference
      let threshold := longThreshold typical
      let blockCount := activeCount / 4
      let boundaryLongCount :=
        ((List.range (blockCount - 1)).filter (fun blockIdx =>
          threshold ≤ max (times.getD (blockIdx*4+3) 0) (times.getD (blockIdx*4+4) 0))).length
      let minBoundaryHits := max 1 (Int.toNat ⌊((blockCount - 1 : ℕ) : ℚ) * (7/20)⌋)
      if minBoundaryHits ≤ boundaryLongCount then true
      else
        match workoutTotalTime with
        | none => false
        | some wt => decide (120 ≤ wt - times.sum) && decide (2 ≤ blockCount)

/-! ## `add_sprint_rest_segments` (analyze_swimming.py lines 79-158) -/

/-- Mutable state of the boundary loop: the `adjusted_times` list and the
`before_rest` / `after_rest` dictionaries.  The dictionaries are modelled as
total functions defaulting to 0; every insertion adds a value ≥ 8 to a
nonnegative entry, so the Python check `idx in dict and dict[idx] > 0`
coincides with `f idx > 0` under the zero default. -/
structure SprintState where
  adj : List ℚ
  beforeRest : ℕ → ℚ
  afterRest : ℕ → ℚ

/-- One iteration of `for block_idx in range(block_count - 1)` (lines 105-133). -/
def sprintBoundaryStep (threshold minSwimTime typical : ℚ)
    (st : SprintState) (blockIdx : ℕ) : SprintState :=
  let boundaryEndIdx := blockIdx * 4 + 3
  let boundaryNextIdx := boundaryEndIdx + 1
  let endTime := st.adj.getD boundaryEndIdx 0
  let nextTime := st.adj.getD boundaryNextIdx 0
  -- `candidate_idx = boundary_end_idx if end_time >= next_time else boundary_next_idx`
  let candidateIdx := if nextTime ≤ endTime then boundaryEndIdx else boundaryNextIdx
  let candidateTime := st.adj.getD candidateIdx 0
  let detectedRest :=
    if threshold ≤ candidateTime then
      max 0 (min (candidateTime - typical) (candidateTime - minSwimTime))
    else 0
  if 8 ≤ detectedRest then
    let adj := st.adj.set candidateIdx (max minSwimTime (candidateTime - detectedRest))
    if candidateIdx = boundaryEndIdx then
      { st with
          adj := adj
          afterRest := Function.update st.afterRest boundaryEndIdx
            (st.afterRest boundaryEndIdx + detectedRest) }
    else
      { st with
          adj := adj
          beforeRest := Function.update st.beforeRest boundaryNextIdx
            (st.beforeRest boundaryNextIdx + detectedRest) }
  else
    let blockStart := blockIdx * 4
    let blockSwimTime := ((st.adj.drop blockStart).take 4).sum
    let fallbackRest := max 0 (180 - blockSwimTime)
    if 8 ≤ fallbackRest then
      { st with
          afterRest := Function.update st.afterRest boundaryEndIdx
            (st.afterRest boundaryEndIdx + fallbackRest) }
    else st

/-- A synthesized rest row (lines 138-143 / 150-155): copy of the adjoining
active row with `TIME` set to the rest duration and
`DISTANCE = STROKES = SWIM_TYPE = 0`. -/
def restRow (base : Seg) (t : ℚ) : Seg :=
  { base with time := t, distance := 0, strokes := 0, swimType := 0 }

/-- The emission loop `for index in range(active_count)` (lines 135-155),
walking the active rows paired with their adjusted times. -/
def sprintEmit (beforeRest afterRest : ℕ → ℚ) : ℕ → List (Seg × ℚ) → List Seg
  | _, [] => []
  | i, (base, t) :: rest =>
      (if 0 < beforeRest i then [restRow base (beforeRest i)] else [])
      ++ { base with time := t }
      :: (if 0 < afterRest i then [restRow base (afterRest i)] else [])
      ++ sprintEmit beforeRest afterRest (i+1) rest

def add_sprint_rest_segments (segs : List Seg) : List Seg :=
  let active := activeOf segs
  let activeCount := active.length
  if activeCount < 4 then active
  else
    let times := active.map Seg.time
    let reference := times.filter (fun t => 0 < t)
    if reference = [] then active
    else
      let typical := typicalLengthTime reference
      let threshold := longThreshold typical
      let minSwimTime := max 8 (typical * (9/20))
      let blockCount := activeCount / 4
      let finalState := (List.range (blockCount - 1)).foldl
        (sprintBoundaryStep threshold minSwimTime typical)
        ⟨times, fun _ => 0, fun _ => 0⟩
      sprintEmit finalState.beforeRest finalState.afterRest 0 (active.zip finalState.adj)

/-- The repair pipeline of `analyze_workout` (analyze_swimming.py lines
257-273): collapsed-start repair, then sprint detection gating the rest
reconstruction. -/
def repair_pipeline (segs : List Seg) (poolLength : ℚ) (workoutTotalTime : Option ℚ) :
    List Seg :=
  let fixed := fix_collapsed_start_lengths segs poolLength
  if detect_sprint_session fixed.1 workoutTotalTime
  then add_sprint_rest_segments fixed.1
  else fixed.1

/-! ## Spec-side sprint-session predicate (claim C3)

A second definition following the wording of claim C3 (not the source), to be
compared with `detect_sprint_session`.  It shares the arithmetic helpers
(`quantileLinear`, `median`, `typicalLengthTime`, `longThreshold`) with the
source embedding. -/

/-- The sprint-session characterization as claim C3 words it: active count ≥ 8
and divisible by 4, AND (i) at least `max(1, ⌊0.35·(block_count-1)⌋)` block
boundaries whose larger adjoining time reaches
`max(typical·1.9, typical+25)`, OR (ii) the workout duration is known, the
total active swim time is at least 120 s less than it, and there are ≥ 2
blocks. -/
def sprintSessionSpec (segs : List Seg) (workoutTotalTime : Option ℚ) : Bool :=
  let active := activeOf segs
  let activeCount := active.length
  let times := active.map Seg.time
  let typical := typicalLengthTime (times.filter (fun t => 0 < t))
  let threshold := longThreshold typical
  let blockCount := activeCount / 4
  let boundaryLongCount :=
    ((List.range (blockCount - 1)).filter (fun blockIdx =>
      threshold ≤ max (times.getD (blockIdx*4+3) 0) (times.getD (blockIdx*4+4) 0))).length
  let condI := max 1 (Int.toNat ⌊((blockCount - 1 : ℕ) : ℚ) * (7/20)⌋) ≤ boundaryLongCount
  let condII :=
    match workoutTotalTime with
    | none => false
    | some wt => decide (120 ≤ wt - times.sum) && decide (2 ≤ blockCount)
  decide (8 ≤ activeCount) && decide (activeCount % 4 = 0) && (decide condI || condII)

/-! ## Heart-rate sample cleaning (claims C5)

A row of `HUAWEI_WORKOUT_DATA_SAMPLE.csv` restricted to the columns the
heart-rate cleaning reads: `TIMESTAMP` and `HEART_RATE`. -/

structure Sample where
  ts : ℝ
  hr : ℤ

/-- GPS-cycling heart-rate cleaning (analyze_cycling.py lines 120-122):
`df.loc[df["HEART_RATE"] < 0, "HEART_RATE"] += 255` then
`df = df[df["HEART_RATE"] > 0]`. -/
def clean_hr_cycling (l : List Sample) : List Sample :=
  (l.map (fun s => if s.hr < 0 then { s with hr := s.hr + 255 } else s)).filter
    (fun s => 0 < s.hr)

/-- Strength heart-rate cleaning (analyze_strength.py lines 45-47): the same
`+= 255`-when-negative correction followed by the `> 0` filter as the
GPS-cycling analyzer. -/
def clean_hr_strength (l : List Sample) : List Sample :=
  (l.map (fun s => if s.hr < 0 then { s with hr := s.hr + 255 } else s)).filter
    (fun s => 0 < s.hr)

/-- Swimming heart-rate cleaning (analyze_swimming.py line 275):
`df_heart_data["HEART_RATE"] = df_heart_data["HEART_RATE"].abs()` — absolute
value, and no row is dropped. -/
def clean_hr_swimming (l : List Sample) : List Sample :=
  l.map (fun s => { s with hr := |s.hr| })

/-- Indoor-cycling heart-rate cleaning (analyze_indoor_cycling.py lines 55-56):
absolute value, then rows with `HEART_RATE ≤ 0` dropped. -/
def clean_hr_indoor (l : List Sample) : List Sample :=
  (l.map (fun s => { s with hr := |s.hr| })).filter (fun s => 0 < s.hr)

/-! ## GPS track derivation (analyze_cycling.py lines 26-38, 126-141) -/

/-- One `<trkpt>` of the GPX file (timestamp in seconds, latitude/longitude in
degrees); the optional elevation is not read by the derivation. -/
structure TrackPt where
  timestamp : ℝ
  lat : ℝ
  lon : ℝ
deriving Inhabited

/-- `math.radians`. -/
noncomputable def radians (x : ℝ) : ℝ := x * Real.pi / 180

/-- `math.atan2(y, x)`: the angle of the point `(x, y)`, by the usual
piecewise definition. -/
noncomputable def atan2 (y x : ℝ) : ℝ :=
  if 0 < x then Real.arctan (y / x)
  else if x < 0 ∧ 0 ≤ y then Real.arctan (y / x) + Real.pi
  else if x < 0 then Real.arctan (y / x) - Real.pi
  else if 0 < y then Real.pi / 2
  else if y < 0 then -(Real.pi / 2)
  else 0

/-- `haversine_m` (analyze_cycling.py lines 26-38): great-circle distance with
Earth radius 6 371 000 m. -/
noncomputable def haversine_m (lat1 lon1 lat2 lon2 : ℝ) : ℝ :=
  let radius : ℝ := 6371000
  let phi1 := radians lat1
  let phi2 := radians lat2
  let deltaPhi := radians (lat2 - lat1)
  let deltaLambda := radians (lon2 - lon1)
  let a := Real.sin (deltaPhi / 2) ^ 2 +
    Real.cos phi1 * Real.cos phi2 * Real.sin (deltaLambda / 2) ^ 2
  let c := 2 * atan2 (Real.sqrt a) (Real.sqrt (1 - a))
  radius * c

/-- The body of the loop `for idx in range(1, len(df_gpx))` (lines 131-138):
for each consecutive pair of points, the haversine delta and the speed
`delta / dt if dt > 0 else 0.0`. -/
noncomputable def step_list : TrackPt → List TrackPt → List (ℝ × ℝ)
  | _, [] => []
  | p, q :: rest =>
      let delta := haversine_m p.lat p.lon q.lat q.lon
      let dt := q.timestamp - p.timestamp
      (delta, if 0 < dt then delta / dt else 0) :: step_list q rest

/-- The cumulative `distances` list (`distances = [0.0]`, then
`distances.append(distances[-1] + delta)`).  The empty case is unreachable:
`parse_gpx_points` rejects an empty track. -/
noncomputable def derive_distances (pts : List TrackPt) : List ℝ :=
  match pts with
  | [] => []
  | p :: rest => ((step_list p rest).map Prod.fst).scanl (· + ·) 0

/-- The `speeds` list (`speeds = [0.0]`, then `speeds.append(...)`). -/
noncomputable def derive_speeds (pts : List TrackPt) : List ℝ :=
  match pts with
  | [] => []
  | p :: rest => 0 :: (step_list p rest).map Prod.snd

/-- `parse_gpx_points` after XML extraction (lines 72-75): an empty record
list raises `ValueError("No track points found in GPX file")`, otherwise the
records are sorted by timestamp. -/
noncomputable def parse_gpx_points (records : List TrackPt) :
    Except String (List TrackPt) :=
  if records.isEmpty then Except.error "No track points found in GPX file"
  else Except.ok
    (List.insertionSort (fun a b => a.timestamp ≤ b.timestamp) records)

/-- The speed written into each cycling record message
(analyze_cycling.py line 220): `record.speed = float(row["speed"])`, the
derived speed unclamped. -/
noncomputable def cycling_record_speeds (pts : List TrackPt) : List ℝ :=
  derive_speeds pts

/-- `MAX_FIT_SPEED_MS = 65.535` (analyze_indoor_cycling.py line 14). -/
def MAX_FIT_SPEED_MS : ℚ := 65535/1000

/-- The speed written into each indoor-cycling record message (line 139):
`safe_speed = max(0.0, min(float(row["SPEED_MS"]), MAX_FIT_SPEED_MS))`. -/
def indoorRecordSpeed (speedMs : ℚ) : ℚ := max 0 (min speedMs MAX_FIT_SPEED_MS)

/-- The speed written into a swimming record message (analyze_swimming.py
lines 276, 430-431): `SPEED_MS = SPEED / 10.0`, emitted only when positive and
unclamped. -/
def swimRecordSpeed (speed : ℤ) : Option ℚ :=
  if 0 < (speed : ℚ) / 10 then some ((speed : ℚ) / 10) else none

/-! ## GPS / heart-rate merge (analyze_cycling.py lines 143-151, 225-226)

`pd.merge_asof(..., direction="nearest", tolerance=5)`: each track point gets
the heart rate of the sample whose timestamp is nearest to the point's, if
that sample lies within 5 seconds; otherwise the field stays unset (`NaN`,
and line 225 then skips `record.heart_rate`). -/

/-- The sample of `l` whose timestamp is nearest to `t` (earliest listed wins
ties, matching `merge_asof`'s backward preference); `none` on the empty
stream. -/
noncomputable def nearestSample (t : ℝ) : List Sample → Option Sample
  | [] => none
  | s :: rest =>
      match nearestSample t rest with
      | none => some s
      | some b => if |t - s.ts| ≤ |t - b.ts| then some s else some b

/-- The heart-rate value attached to the track point at timestamp `t`:
the nearest sample's heart rate when within the 5-second tolerance. -/
noncomputable def attachHR (t : ℝ) (samples : List Sample) : Option ℤ :=
  match nearestSample t samples with
  | none => none
  | some s => if |t - s.ts| ≤ 5 then some s.hr else none

/-- The merged timeline: every track point annotated with its
optional heart rate. -/
noncomputable def mergeHR (pts : List TrackPt) (samples : List Sample) :
    List (TrackPt × Option ℤ) :=
  pts.map (fun p => (p, attachHR p.timestamp samples))

/-! ## General list lemmas -/

theorem getD_map_lt {α β : Type} (f : α → β) :
    ∀ (l : List α) (i : ℕ), i < l.length → ∀ (d : β) (e : α),
      (l.map f).getD i d = f (l.getD i e)
  | [], i, hi, _, _ => absurd hi (by simp)
  | a :: l, 0, _, _, _ => rfl
  | a :: l, i+1, hi, d, e => getD_map_lt f l i (by simpa using hi) d e

/-- Membership of the `i`-th entry of a list for an in-range index. -/
theorem getD_mem_of_lt {α : Type} (l : List α) (i : ℕ) (d : α)
    (h : i < l.length) : l.getD i d ∈ l := by
  rw [List.getD_eq_getElem l d h]
  exact List.getElem_mem h

theorem getD_nonneg_of_forall {l : List ℝ} (h : ∀ x ∈ l, 0 ≤ x) (i : ℕ) :
    0 ≤ l.getD i 0 := by
  rcases lt_or_le i l.length with hi | hi
  · exact h _ (getD_mem_of_lt l i 0 hi)
  · rw [List.getD_eq_default _ _ hi]

theorem getD_set_eq {α : Type} :
    ∀ (l : List α) (i j : ℕ) (v d : α),
      (l.set i v).getD j d =
        if i = j ∧ j < l.length then v else l.getD j d
  | [], i, j, v, d => by simp [List.set]
  | a :: l, 0, 0, v, d => by simp
  | a :: l, 0, j+1, v, d => by simp
  | a :: l, i+1, 0, v, d => by simp
  | a :: l, i+1, j+1, v, d => by
      simpa [List.set, Nat.succ_lt_succ_iff] using getD_set_eq l i j v d

theorem zipWith_eq_map_zip {α β γ : Type} (f : α → β → γ) :
    ∀ (l₁ : List α) (l₂ : List β),
      List.zipWith f l₁ l₂ = (l₁.zip l₂).map (fun p => f p.1 p.2)
  | [], _ => by simp
  | _ :: _, [] => by simp
  | a :: l₁, b :: l₂ => by simp [zipWith_eq_map_zip f l₁ l₂]

/-! ## Structure of `collapsedRows` -/

theorem collapsedRows_skip (g : ℕ) (triple : List Seg) :
    ∀ (l : List Seg) (i : ℕ), g < i → collapsedRows g triple i l = l
  | [], _, _ => rfl
  | row :: rest, i, hi => by
      have hne : i ≠ g := by omega
      simp only [collapsedRows, if_pos hne]
      simpa using collapsedRows_skip g triple rest (i+1) (by omega)

theorem collapsedRows_spec (g : ℕ) (triple : List Seg) :
    ∀ (l : List Seg) (i : ℕ), i ≤ g → g - i < l.length →
      collapsedRows g triple i l =
        l.take (g - i) ++ triple ++ l.drop (g - i + 1)
  | [], i, _, hlen => absurd hlen (by simp)
  | row :: rest, i, hig, hlen => by
      by_cases hi : i = g
      · subst hi
        simp only [collapsedRows, Nat.sub_self, ne_eq, not_true_eq_false,
          if_false, List.take_zero, List.nil_append, List.drop_succ_cons,
          List.drop_zero]
        rw [collapsedRows_skip i triple rest (i+1) (by omega)]
      · have hig' : i + 1 ≤ g := by omega
        have hgi : g - i = (g - (i+1)) + 1 := by omega
        simp only [collapsedRows, if_pos (by omega : i ≠ g)]
        rw [collapsedRows_spec g triple rest (i+1) hig' (by simp at hlen; omega)]
        rw [hgi]
        simp [List.take_succ_cons, List.drop_succ_cons]

/-! ## Decomposition of a list at its first active segment -/

theorem firstActive_spec :
    ∀ (segs : List Seg), activeOf segs ≠ [] →
      firstActiveIdx segs < segs.length ∧
      (activeOf segs).headI = segs.getD (firstActiveIdx segs) default ∧
      activeOf (segs.take (firstActiveIdx segs)) = [] ∧
      activeOf segs =
        segs.getD (firstActiveIdx segs) default ::
          activeOf (segs.drop (firstActiveIdx segs + 1))
  | [], h => absurd rfl h
  | s :: rest, h => by
      by_cases hs : 0 < s.distance
      · have hidx : firstActiveIdx (s :: rest) = 0 := by
          simp [firstActiveIdx, List.findIdx_cons, hs]
        refine ⟨by simp [hidx], ?_, by simp [hidx, activeOf], ?_⟩
        · simp [hidx, activeOf, List.filter_cons, hs]
        · simp [hidx, activeOf, List.filter_cons, hs]
      · have hact : activeOf (s :: rest) = activeOf rest := by
          simp [activeOf, List.filter_cons, hs]
        have hrest : activeOf rest ≠ [] := by rw [hact] at h; exact h
        have hidx : firstActiveIdx (s :: rest) = firstActiveIdx rest + 1 := by
          simp [firstActiveIdx, List.findIdx_cons, hs]
        obtain ⟨h1, h2, h3, h4⟩ := firstActive_spec rest hrest
        refine ⟨by simp [hidx]; omega, ?_, ?_, ?_⟩
        · rw [hact, hidx, h2]; rfl
        · rw [hidx, List.take_succ_cons]
          simpa [activeOf, List.filter_cons, hs] using h3
        · rw [hact, hidx, h4]; rfl

/-! ## Case analysis of `fix_collapsed_start_lengths` -/

theorem sumTime_append (l₁ l₂ : List Seg) :
    sumTime (l₁ ++ l₂) = sumTime l₁ + sumTime l₂ := by
  simp [sumTime]

theorem sumDist_append (l₁ l₂ : List Seg) :
    sumDist (l₁ ++ l₂) = sumDist l₁ + sumDist l₂ := by
  simp [sumDist]

theorem fix_result (segs : List Seg) (pool : ℚ) :
    fix_collapsed_start_lengths segs pool = (segs, false) ∨
    fix_collapsed_start_lengths segs pool = (collapsedSplit segs, true) := by
  unfold fix_collapsed_start_lengths
  split
  · exact Or.inl rfl
  split
  · exact Or.inl rfl
  split
  · exact Or.inl rfl
  split
  · exact Or.inl rfl
  split
  · exact Or.inl rfl
  exact Or.inr rfl

theorem fix_not_fired (segs : List Seg) (pool : ℚ)
    (h : (fix_collapsed_start_lengths segs pool).2 = false) :
    fix_collapsed_start_lengths segs pool = (segs, false) := by
  rcases fix_result segs pool with h' | h'
  · exact h'
  · rw [h'] at h; simp at h

theorem fix_fired_spec (segs : List Seg) (pool : ℚ)
    (h : (fix_collapsed_start_lengths segs pool).2 = true) :
    (fix_collapsed_start_lengths segs pool).1 = collapsedSplit segs ∧
    4 ≤ (activeOf segs).length ∧
    0 < (activeOf segs).headI.distance ∧
    (activeOf segs).headI.distance ≤ pool * (3/2) ∧
    comparisonTimes segs ≠ [] ∧
    inflatedThreshold segs ≤ (activeOf segs).headI.time := by
  have hsave := h
  unfold fix_collapsed_start_lengths at h
  split at h
  · simp at h
  split at h
  · simp at h
  split at h
  · simp at h
  split at h
  · simp at h
  split at h
  · simp at h
  rename_i h1 h2 h3 h4 h5
  push_neg at h1 h2 h5
  have h' : fix_collapsed_start_lengths segs pool = (collapsedSplit segs, true) := by
    rcases fix_result segs pool with h'' | h''
    · rw [h''] at hsave; simp at hsave
    · exact h''
  exact ⟨by rw [h'], h1, h2.1, h2.2, h4, h5⟩

/-- The three replacement rows of the collapsed-start repair, built from the
first active segment: same distance, times `T/3, T/3, T - 2·(T/3)`, strokes
`round(S/3), round(S/3), round(S - 2·round(S/3))` clamped at 0, all other
fields copied. -/
def splitTripleOf (first : Seg) : List Seg :=
  [{ first with
      time := first.time / 3
      strokes := max 0 (pyRound ((first.strokes : ℚ) / 3)) },
   { first with
      time := first.time / 3
      strokes := max 0 (pyRound ((first.strokes : ℚ) / 3)) },
   { first with
      time := first.time - 2 * (first.time / 3)
      strokes := max 0 (pyRound ((first.strokes : ℚ) -
        2 * ((pyRound ((first.strokes : ℚ) / 3)) : ℚ))) }]

theorem activeOf_nonempty_of_four {segs : List Seg}
    (h4 : 4 ≤ (activeOf segs).length) : activeOf segs ≠ [] := by
  intro h
  rw [h] at h4
  simp at h4

theorem comparisonWindow_nonempty {segs : List Seg}
    (h4 : 4 ≤ (activeOf segs).length) : comparisonWindow segs ≠ [] := by
  intro h
  have := congrArg List.length h
  simp [comparisonWindow] at this
  omega

theorem collapsedSplit_eq (segs : List Seg)
    (h4 : 4 ≤ (activeOf segs).length) :
    collapsedSplit segs =
      segs.take (firstActiveIdx segs) ++ splitTripleOf ((activeOf segs).headI) ++
        segs.drop (firstActiveIdx segs + 1) := by
  obtain ⟨hg, hhead, -, -⟩ := firstActive_spec segs (activeOf_nonempty_of_four h4)
  simp only [collapsedSplit]
  rw [← hhead]
  rw [collapsedRows_spec _ _ segs 0 (Nat.zero_le _) (by simpa using hg)]
  simp [splitTripleOf]

theorem fix_fired_eq (segs : List Seg) (pool : ℚ)
    (h4 : 4 ≤ (activeOf segs).length)
    (hD0 : 0 < (activeOf segs).headI.distance)
    (hD1 : (activeOf segs).headI.distance ≤ pool * (3/2))
    (hct : comparisonTimes segs ≠ [])
    (hT : inflatedThreshold segs ≤ (activeOf segs).headI.time) :
    fix_collapsed_start_lengths segs pool =
      (segs.take (firstActiveIdx segs) ++ splitTripleOf ((activeOf segs).headI) ++
        segs.drop (firstActiveIdx segs + 1), true) := by
  unfold fix_collapsed_start_lengths
  rw [if_neg (by omega), if_neg (by push_neg; exact ⟨hD0, hD1⟩),
    if_neg (comparisonWindow_nonempty h4), if_neg hct, if_neg (not_lt.mpr hT),
    collapsedSplit_eq segs h4]

theorem segs_decomp_at (segs : List Seg) (g : ℕ) (hg : g < segs.length) :
    segs = segs.take g ++ segs.getD g default :: segs.drop (g+1) := by
  conv_lhs => rw [← List.take_append_drop g segs]
  rw [List.drop_eq_getElem_cons hg, List.getD_eq_getElem segs default hg]

theorem activeOf_fired (segs : List Seg)
    (hD0 : 0 < (activeOf segs).headI.distance) :
    activeOf (segs.take (firstActiveIdx segs) ++
        splitTripleOf ((activeOf segs).headI) ++
        segs.drop (firstActiveIdx segs + 1)) =
      splitTripleOf ((activeOf segs).headI) ++
        activeOf (segs.drop (firstActiveIdx segs + 1)) := by
  by_cases hne : activeOf segs = []
  · rw [hne] at hD0
    simp [List.headI] at hD0
    simp [default] at hD0
  obtain ⟨-, -, htake, -⟩ := firstActive_spec segs hne
  show List.filter _ _ = _
  rw [List.filter_append, List.filter_append]
  have h1 : (segs.take (firstActiveIdx segs)).filter (fun s => 0 < s.distance) = [] :=
    htake
  have h2 : (splitTripleOf ((activeOf segs).headI)).filter
      (fun s => 0 < s.distance) = splitTripleOf ((activeOf segs).headI) := by
    simp [splitTripleOf, List.filter_cons, hD0]
  rw [h1, h2]
  rfl

theorem sumTime_fix (segs : List Seg) (pool : ℚ) :
    sumTime (fix_collapsed_start_lengths segs pool).1 = sumTime segs := by
  rcases fix_result segs pool with h | h
  · rw [h]
  · obtain ⟨h1, h4, hD0, hD1, hct, hT⟩ :=
      fix_fired_spec segs pool (by rw [h])
    rw [h1, collapsedSplit_eq segs h4]
    obtain ⟨hg, hhead, -, -⟩ := firstActive_spec segs (activeOf_nonempty_of_four h4)
    have hsum : sumTime segs =
        sumTime (segs.take (firstActiveIdx segs)) + ((activeOf segs).headI.time +
          sumTime (segs.drop (firstActiveIdx segs + 1))) := by
      conv_lhs => rw [segs_decomp_at segs (firstActiveIdx segs) hg]
      rw [← hhead]
      simp [sumTime, List.map_append]
    rw [hsum, sumTime_append, sumTime_append]
    simp only [sumTime, splitTripleOf, List.map_cons, List.map_nil, List.sum_cons,
      List.sum_nil]
    ring

theorem sumDist_fix_fired (segs : List Seg) (pool : ℚ)
    (h : (fix_collapsed_start_lengths segs pool).2 = true) :
    sumDist (fix_collapsed_start_lengths segs pool).1 =
      sumDist segs + 2 * (activeOf segs).headI.distance := by
  obtain ⟨h1, h4, hD0, hD1, hct, hT⟩ := fix_fired_spec segs pool h
  rw [h1, collapsedSplit_eq segs h4]
  obtain ⟨hg, hhead, -, -⟩ := firstActive_spec segs (activeOf_nonempty_of_four h4)
  have hsum : sumDist segs =
      sumDist (segs.take (firstActiveIdx segs)) + ((activeOf segs).headI.distance +
        sumDist (segs.drop (firstActiveIdx segs + 1))) := by
    conv_lhs => rw [segs_decomp_at segs (firstActiveIdx segs) hg]
    rw [← hhead]
    simp [sumDist, List.map_append]
  rw [hsum, sumDist_append, sumDist_append]
  simp only [sumDist, splitTripleOf, List.map_cons, List.map_nil, List.sum_cons,
    List.sum_nil]
  ring

/-! ## Claim C2 -/

/-- **C2.** A segment list with at least 4 active segments whose first active
segment has distance `0 < D ≤ 1.5·pool_length` and time
`T ≥ max(45, 2.2·median(times of the next up-to-8 active segments with
time > 0))` gets exactly that first active segment replaced, in place, by
three consecutive segments with distance `D` each, times
`T/3, T/3, T - 2·(T/3)`, and strokes split in thirds with the last segment
absorbing the remainder (and the repair flag is `true`). -/
theorem collapsed_start_repair_splits_first_active (segs : List Seg) (pool : ℚ)
    (h4 : 4 ≤ (activeOf segs).length)
    (hD0 : 0 < (activeOf segs).headI.distance)
    (hD1 : (activeOf segs).headI.distance ≤ pool * (3/2))
    (hct : comparisonTimes segs ≠ [])
    (hT : max 45 (median (comparisonTimes segs) * (11/5)) ≤
      (activeOf segs).headI.time) :
    fix_collapsed_start_lengths segs pool =
      (segs.take (firstActiveIdx segs) ++ splitTripleOf ((activeOf segs).headI) ++
        segs.drop (firstActiveIdx segs + 1), true) :=
  fix_fired_eq segs pool h4 hD0 hD1 hct hT

/-- Witness for C2 at the spec's concrete scenario:
`[{time:90,distance:25,strokes:30}, {time:28,distance:25,strokes:16}, …]`
with pool length 25 yields three leading segments with distance 25, times
`[30,30,30]` and strokes `[10,10,10]`. -/
theorem collapsed_start_repair_splits_first_active_witness :
    fix_collapsed_start_lengths
        [⟨90,25,30,2⟩, ⟨28,25,16,2⟩, ⟨28,25,16,2⟩, ⟨28,25,16,2⟩] 25 =
      ([⟨30,25,10,2⟩, ⟨30,25,10,2⟩, ⟨30,25,10,2⟩,
        ⟨28,25,16,2⟩, ⟨28,25,16,2⟩, ⟨28,25,16,2⟩], true) := by
  have h := collapsed_start_repair_splits_first_active
    [⟨90,25,30,2⟩, ⟨28,25,16,2⟩, ⟨28,25,16,2⟩, ⟨28,25,16,2⟩] 25
    (by norm_num [activeOf, List.filter])
    (by norm_num [activeOf, List.filter, List.headI])
    (by norm_num [activeOf, List.filter, List.headI])
    (by norm_num [comparisonTimes, comparisonWindow, activeOf, List.filter]; simp)
    (by norm_num [comparisonTimes, comparisonWindow, activeOf, List.filter,
      List.headI, median, List.insertionSort, List.orderedInsert])
  rw [h]
  norm_num [firstActiveIdx, List.findIdx, List.findIdx.go, splitTripleOf,
    activeOf, List.filter, List.headI, pyRound]

/-! ## Claim C4 -/

/-- **C4, counterexample.**  The collapsed-start repair is *not* idempotent:
on `[{time:1000,distance:25}, {time:28,distance:25} ×3]` the repair fires,
and reapplying it to its own output fires again (the repaired first segment's
time 1000/3 still exceeds the recomputed inflated-duration threshold), so the
output is not returned unchanged. -/
theorem collapsed_repair_reapplies_on_own_output :
    (fix_collapsed_start_lengths
      (fix_collapsed_start_lengths
        [⟨1000,25,30,2⟩, ⟨28,25,16,2⟩, ⟨28,25,16,2⟩, ⟨28,25,16,2⟩] 25).1 25).2
      = true ∧
    (fix_collapsed_start_lengths
      (fix_collapsed_start_lengths
        [⟨1000,25,30,2⟩, ⟨28,25,16,2⟩, ⟨28,25,16,2⟩, ⟨28,25,16,2⟩] 25).1 25).1
      ≠ (fix_collapsed_start_lengths
        [⟨1000,25,30,2⟩, ⟨28,25,16,2⟩, ⟨28,25,16,2⟩, ⟨28,25,16,2⟩] 25).1 := by
  have h1 : fix_collapsed_start_lengths
      [⟨1000,25,30,2⟩, ⟨28,25,16,2⟩, ⟨28,25,16,2⟩, ⟨28,25,16,2⟩] 25 =
      ([⟨1000/3,25,10,2⟩, ⟨1000/3,25,10,2⟩, ⟨1000/3,25,10,2⟩,
        ⟨28,25,16,2⟩, ⟨28,25,16,2⟩, ⟨28,25,16,2⟩], true) := by
    norm_num [fix_collapsed_start_lengths, activeOf, comparisonWindow,
      comparisonTimes, inflatedThreshold, median, quantileLinear, collapsedSplit,
      collapsedRows, firstActiveIdx, List.findIdx, List.findIdx.go,
      List.insertionSort, List.orderedInsert, pyRound, List.filter]
    rw [if_neg (by simp), if_neg (by simp)]
  have h2 : fix_collapsed_start_lengths
      [⟨1000/3,25,10,2⟩, ⟨1000/3,25,10,2⟩, ⟨1000/3,25,10,2⟩,
        ⟨28,25,16,2⟩, ⟨28,25,16,2⟩, ⟨28,25,16,2⟩] 25 =
      ([⟨1000/9,25,3,2⟩, ⟨1000/9,25,3,2⟩, ⟨1000/9,25,4,2⟩,
        ⟨1000/3,25,10,2⟩, ⟨1000/3,25,10,2⟩,
        ⟨28,25,16,2⟩, ⟨28,25,16,2⟩, ⟨28,25,16,2⟩], true) := by
    norm_num [fix_collapsed_start_lengths, activeOf, comparisonWindow,
      comparisonTimes, inflatedThreshold, median, quantileLinear, collapsedSplit,
      collapsedRows, firstActiveIdx, List.findIdx, List.findIdx.go,
      List.insertionSort, List.orderedInsert, pyRound, List.filter]
    rw [if_neg (by simp), if_neg (by simp)]
  rw [h1, h2]
  refine ⟨rfl, ?_⟩
  simp only [ne_eq, List.cons.injEq, Seg.mk.injEq]
  intro hcontra
  have := hcontra.1.1
  norm_num at this

/-- **C4, amended.**  Reapplying the collapsed-start repair to its own output
performs no further split (returning the output unchanged with flag `false`)
whenever the first application did not fire, or whenever it fired on a first
active segment of time `T < 135` (so that the repaired first time `T/3` stays
below the 45-second floor of the inflated-duration threshold).  A second
split can occur only when `T ≥ 135`. -/
theorem collapsed_repair_idempotent_amended (segs : List Seg) (pool : ℚ) :
    ((fix_collapsed_start_lengths segs pool).2 = false →
      fix_collapsed_start_lengths (fix_collapsed_start_lengths segs pool).1 pool =
        ((fix_collapsed_start_lengths segs pool).1, false)) ∧
    ((fix_collapsed_start_lengths segs pool).2 = true →
      (activeOf segs).headI.time < 135 →
      fix_collapsed_start_lengths (fix_collapsed_start_lengths segs pool).1 pool =
        ((fix_collapsed_start_lengths segs pool).1, false)) := by
  constructor
  · intro h
    have h' := fix_not_fired segs pool h
    rw [h']
    exact h'
  · intro h hT135
    obtain ⟨h1, h4, hD0, hD1, hct, hT⟩ := fix_fired_spec segs pool h
    have hout : (fix_collapsed_start_lengths segs pool).1 =
        segs.take (firstActiveIdx segs) ++ splitTripleOf ((activeOf segs).headI) ++
          segs.drop (firstActiveIdx segs + 1) := by
      rw [h1, collapsedSplit_eq segs h4]
    have hao : activeOf (fix_collapsed_start_lengths segs pool).1 =
        splitTripleOf ((activeOf segs).headI) ++
          activeOf (segs.drop (firstActiveIdx segs + 1)) := by
      rw [hout]
      exact activeOf_fired segs hD0
    have hheadtime :
        (activeOf (fix_collapsed_start_lengths segs pool).1).headI.time =
          (activeOf segs).headI.time / 3 := by
      rw [hao]
      simp [splitTripleOf]
    rcases fix_result (fix_collapsed_start_lengths segs pool).1 pool with h2 | h2
    · exact h2
    · exfalso
      obtain ⟨-, -, -, -, -, hT2⟩ :=
        fix_fired_spec (fix_collapsed_start_lengths segs pool).1 pool (by rw [h2])
      have h45 : (45:ℚ) ≤ inflatedThreshold (fix_collapsed_start_lengths segs pool).1 :=
        le_max_left _ _
      rw [hheadtime] at hT2
      linarith

/-- Witness for the amended C4 on a firing input with `T = 90 < 135`: the
second application leaves the repaired list unchanged with flag `false`. -/
theorem collapsed_repair_idempotent_amended_witness :
    fix_collapsed_start_lengths
        (fix_collapsed_start_lengths
          [⟨90,25,30,2⟩, ⟨28,25,16,2⟩, ⟨28,25,16,2⟩, ⟨28,25,16,2⟩] 25).1 25 =
      ((fix_collapsed_start_lengths
          [⟨90,25,30,2⟩, ⟨28,25,16,2⟩, ⟨28,25,16,2⟩, ⟨28,25,16,2⟩] 25).1,
        false) :=
  by
  have hfire : (fix_collapsed_start_lengths
      [⟨90,25,30,2⟩, ⟨28,25,16,2⟩, ⟨28,25,16,2⟩, ⟨28,25,16,2⟩] 25).2 = true := by
    norm_num [fix_collapsed_start_lengths, activeOf, comparisonWindow,
      comparisonTimes, inflatedThreshold, median, quantileLinear, collapsedSplit,
      collapsedRows, firstActiveIdx, List.findIdx, List.findIdx.go,
      List.insertionSort, List.orderedInsert, pyRound, List.filter]
    rw [if_neg (by simp), if_neg (by simp)]
  exact (collapsed_repair_idempotent_amended
    [⟨90,25,30,2⟩, ⟨28,25,16,2⟩, ⟨28,25,16,2⟩, ⟨28,25,16,2⟩] 25).2 hfire
    (by norm_num [activeOf, List.filter, List.headI])

/-! ## Sprint-rest machinery: emission lemmas -/

theorem posClip_eq_self {x : ℚ} (h : 0 ≤ x) : posClip x = x := by
  unfold posClip
  split
  · rfl
  · linarith

theorem posClip_nonneg (x : ℚ) : 0 ≤ posClip x := by
  unfold posClip
  split
  · linarith
  · rfl

theorem sumTime_cons (a : Seg) (l : List Seg) :
    sumTime (a :: l) = a.time + sumTime l := by
  simp [sumTime]

theorem sumDist_cons (a : Seg) (l : List Seg) :
    sumDist (a :: l) = a.distance + sumDist l := by
  simp [sumDist]

theorem sumTime_restOpt (b : Seg) (x : ℚ) :
    sumTime (if 0 < x then [restRow b x] else []) = posClip x := by
  unfold posClip
  split <;> simp [sumTime, restRow]

theorem sumDist_restOpt (b : Seg) (x : ℚ) :
    sumDist (if 0 < x then [restRow b x] else []) = 0 := by
  split <;> simp [sumDist, restRow]

theorem list_decomp_at {α : Type} (l : List α) (g : ℕ) (d : α) (hg : g < l.length) :
    l = l.take g ++ l.getD g d :: l.drop (g+1) := by
  conv_lhs => rw [← List.take_append_drop g l]
  rw [List.drop_eq_getElem_cons hg, List.getD_eq_getElem l d hg]

theorem sum_set_of_lt (l : List ℚ) (c : ℕ) (v : ℚ) (h : c < l.length) :
    (l.set c v).sum = l.sum + v - l.getD c 0 := by
  have hl : l.sum = (l.take c).sum + (l.getD c 0 + (l.drop (c+1)).sum) := by
    conv_lhs => rw [list_decomp_at l c 0 h]
    simp
  rw [List.sum_set, if_pos h, hl]
  ring

theorem zip_map_fst {α β : Type} :
    ∀ (l₁ : List α) (l₂ : List β), l₁.length = l₂.length →
      (l₁.zip l₂).map Prod.fst = l₁
  | [], [], _ => rfl
  | [], _ :: _, h => by simp at h
  | _ :: _, [], h => by simp at h
  | a :: l₁, b :: l₂, h => by
      simpa using zip_map_fst l₁ l₂ (by simpa using h)

theorem zip_map_snd {α β : Type} :
    ∀ (l₁ : List α) (l₂ : List β), l₁.length = l₂.length →
      (l₁.zip l₂).map Prod.snd = l₂
  | [], [], _ => rfl
  | [], _ :: _, h => by simp at h
  | _ :: _, [], h => by simp at h
  | a :: l₁, b :: l₂, h => by
      simpa using zip_map_snd l₁ l₂ (by simpa using h)

theorem zipWith_setTime_self :
    ∀ (l : List Seg),
      List.zipWith (fun b t => { b with time := t }) l (l.map Seg.time) = l
  | [] => rfl
  | b :: l => by
      have ih := zipWith_setTime_self l
      cases b
      simpa using ih

theorem sum_update_range (F : ℕ → ℚ) (key : ℕ) (v : ℚ) (n : ℕ) (h : key < n) :
    ∑ i ∈ Finset.range n, Function.update F key v i =
      ∑ i ∈ Finset.range n, F i + v - F key := by
  rw [Finset.sum_update_of_mem (Finset.mem_range.mpr h)]
  rw [Finset.sum_eq_sum_diff_singleton_add (Finset.mem_range.mpr h) F]
  ring

theorem sum_posClip_update (f : ℕ → ℚ) (key : ℕ) (v : ℚ) (n : ℕ) (h : key < n) :
    ∑ i ∈ Finset.range n, posClip (Function.update f key v i) =
      ∑ i ∈ Finset.range n, posClip (f i) + posClip v - posClip (f key) := by
  have hcomp : (fun i => posClip (Function.update f key v i)) =
      Function.update (fun i => posClip (f i)) key (posClip v) := by
    funext i
    by_cases hi : i = key <;> simp [Function.update_apply, hi]
  calc ∑ i ∈ Finset.range n, posClip (Function.update f key v i)
      = ∑ i ∈ Finset.range n, Function.update (fun i => posClip (f i)) key (posClip v) i := by
        rw [hcomp]
    _ = ∑ i ∈ Finset.range n, posClip (f i) + posClip v - posClip (f key) :=
        sum_update_range _ key _ n h

theorem sprintEmit_sumTime (beforeRest afterRest : ℕ → ℚ) :
    ∀ (pairs : List (Seg × ℚ)) (i : ℕ),
      sumTime (sprintEmit beforeRest afterRest i pairs) =
        (pairs.map Prod.snd).sum +
          ∑ j ∈ Finset.range pairs.length,
            (posClip (beforeRest (i+j)) + posClip (afterRest (i+j)))
  | [], i => by simp [sprintEmit, sumTime]
  | (base, t) :: rest, i => by
      have ih := sprintEmit_sumTime beforeRest afterRest rest (i+1)
      have hsum : ∑ j ∈ Finset.range rest.length,
            (posClip (beforeRest (i+(j+1))) + posClip (afterRest (i+(j+1)))) =
          ∑ j ∈ Finset.range rest.length,
            (posClip (beforeRest ((i+1)+j)) + posClip (afterRest ((i+1)+j))) :=
        Finset.sum_congr rfl (fun j _ => by
          rw [show i+(j+1) = (i+1)+j from by omega])
      simp only [sprintEmit, sumTime_append, sumTime_cons, sumTime_restOpt, ih,
        List.map_cons, List.sum_cons, List.length_cons]
      rw [Finset.sum_range_succ' (fun j =>
        posClip (beforeRest (i+j)) + posClip (afterRest (i+j))) rest.length]
      rw [hsum]
      simp only [Nat.add_comm, Nat.add_left_comm, Nat.add_assoc]
      generalize (∑ x ∈ Finset.range rest.length,
        (posClip (beforeRest (i + (x + 1))) + posClip (afterRest (i + (x + 1))))) = S
      ring

theorem sprintEmit_sumDist (beforeRest afterRest : ℕ → ℚ) :
    ∀ (pairs : List (Seg × ℚ)) (i : ℕ),
      sumDist (sprintEmit beforeRest afterRest i pairs) =
        (pairs.map (fun pr => pr.1.distance)).sum
  | [], i => by simp [sprintEmit, sumDist]
  | (base, t) :: rest, i => by
      have ih := sprintEmit_sumDist beforeRest afterRest rest (i+1)
      simp only [sprintEmit, sumDist_append, sumDist_cons, sumDist_restOpt, ih,
        List.map_cons, List.sum_cons]
      ring

theorem sprintEmit_filter (beforeRest afterRest : ℕ → ℚ) :
    ∀ (pairs : List (Seg × ℚ)) (i : ℕ), (∀ pr ∈ pairs, 0 < pr.1.distance) →
      (sprintEmit beforeRest afterRest i pairs).filter (fun s => 0 < s.distance) =
        pairs.map (fun pr => { pr.1 with time := pr.2 })
  | [], i, _ => rfl
  | (base, t) :: rest, i, h => by
      have hbase : 0 < base.distance := h (base, t) (by simp)
      have ih := sprintEmit_filter beforeRest afterRest rest (i+1)
        (fun pr hpr => h pr (by simp [hpr]))
      have hrestrow : ∀ x : ℚ,
          (if 0 < x then [restRow base x] else []).filter
            (fun s => 0 < s.distance) = [] := by
        intro x
        split <;> simp [restRow]
      simp only [sprintEmit, List.filter_append, hrestrow, List.filter_cons, ih]
      simp [hbase]

theorem sprintEmit_restRows (beforeRest afterRest : ℕ → ℚ) :
    ∀ (pairs : List (Seg × ℚ)) (i : ℕ), (∀ pr ∈ pairs, 0 < pr.1.distance) →
      ∀ r ∈ sprintEmit beforeRest afterRest i pairs, ¬(0 < r.distance) →
        r.distance = 0 ∧ r.strokes = 0 ∧ r.swimType = 0
  | [], i, _, r, hr, _ => by simp [sprintEmit] at hr
  | (base, t) :: rest, i, h, r, hr, hrd => by
      have hbase : 0 < base.distance := h (base, t) (by simp)
      simp only [sprintEmit] at hr
      rcases List.mem_append.mp hr with hr12 | hrec
      · rcases List.mem_append.mp hr12 with hr1 | hr2
        · split at hr1
          · simp only [List.mem_singleton] at hr1
            subst hr1
            simp [restRow]
          · simp at hr1
        · rcases List.mem_cons.mp hr2 with hre | hr3
          · subst hre
            exact absurd hbase (by simpa using hrd)
          · split at hr3
            · simp only [List.mem_singleton] at hr3
              subst hr3
              simp [restRow]
            · simp at hr3
      · exact sprintEmit_restRows beforeRest afterRest rest (i+1)
          (fun pr hpr => h pr (by simp [hpr])) r hrec hrd

/-! ## Sprint-rest machinery: boundary-loop invariant -/

theorem foldl_inv {α β : Type} (P : α → Prop) (f : α → β → α) :
    ∀ (l : List β) (init : α), P init →
      (∀ st b, b ∈ l → P st → P (f st b)) → P (l.foldl f init)
  | [], _, h, _ => h
  | b :: l, init, h, hstep =>
      foldl_inv P f l (f init b) (hstep init b (by simp) h)
        (fun st b' hb' hP => hstep st b' (List.mem_cons_of_mem _ hb') hP)

/-- Invariant of the boundary loop of `add_sprint_rest_segments`, relative to
the initial `adjusted_times` list `times0`: the adjusted list keeps its
length, the rest dictionaries stay nonnegative, every adjusted time is at most
the original, and the total time bookkeeping (adjusted times plus pending
rest) never drops below the original total. -/
def SprintInv (times0 : List ℚ) (st : SprintState) : Prop :=
  st.adj.length = times0.length ∧
  (∀ i, 0 ≤ st.beforeRest i) ∧
  (∀ i, 0 ≤ st.afterRest i) ∧
  (∀ i, st.adj.getD i 0 ≤ times0.getD i 0) ∧
  times0.sum ≤ st.adj.sum +
    (∑ i ∈ Finset.range times0.length, posClip (st.beforeRest i) +
      ∑ i ∈ Finset.range times0.length, posClip (st.afterRest i))

theorem sprint_inv_extract_after (times0 : List ℚ) (st : SprintState) (key : ℕ)
    (r ms : ℚ) (hkey : key < times0.length) (hr8 : 8 ≤ r)
    (hms : r ≤ st.adj.getD key 0 - ms) (h : SprintInv times0 st) :
    SprintInv times0 ⟨st.adj.set key (max ms (st.adj.getD key 0 - r)),
      st.beforeRest, Function.update st.afterRest key (st.afterRest key + r)⟩ := by
  obtain ⟨hlen, hbef, haft, hle, hm⟩ := h
  have hkey' : key < st.adj.length := by omega
  have hmax : max ms (st.adj.getD key 0 - r) = st.adj.getD key 0 - r :=
    max_eq_right (by linarith)
  refine ⟨by simp [hlen], hbef, ?_, ?_, ?_⟩
  · intro i
    rcases Decidable.em (i = key) with hi | hi
    · simp [Function.update_apply, hi]
      have := haft key
      linarith
    · simp [Function.update_apply, hi, haft i]
  · intro i
    rw [getD_set_eq]
    split
    case isTrue hcase =>
      rw [hmax, ← hcase.1]
      have := hle key
      linarith
    case isFalse => exact hle i
  · rw [sum_set_of_lt _ _ _ hkey', hmax,
      sum_posClip_update _ _ _ _ hkey,
      posClip_eq_self (by have := haft key; linarith),
      posClip_eq_self (haft key)]
    linarith

theorem sprint_inv_extract_before (times0 : List ℚ) (st : SprintState) (key : ℕ)
    (r ms : ℚ) (hkey : key < times0.length) (hr8 : 8 ≤ r)
    (hms : r ≤ st.adj.getD key 0 - ms) (h : SprintInv times0 st) :
    SprintInv times0 ⟨st.adj.set key (max ms (st.adj.getD key 0 - r)),
      Function.update st.beforeRest key (st.beforeRest key + r), st.afterRest⟩ := by
  obtain ⟨hlen, hbef, haft, hle, hm⟩ := h
  have hkey' : key < st.adj.length := by omega
  have hmax : max ms (st.adj.getD key 0 - r) = st.adj.getD key 0 - r :=
    max_eq_right (by linarith)
  refine ⟨by simp [hlen], ?_, haft, ?_, ?_⟩
  · intro i
    rcases Decidable.em (i = key) with hi | hi
    · simp [Function.update_apply, hi]
      have := hbef key
      linarith
    · simp [Function.update_apply, hi, hbef i]
  · intro i
    rw [getD_set_eq]
    split
    case isTrue hcase =>
      rw [hmax, ← hcase.1]
      have := hle key
      linarith
    case isFalse => exact hle i
  · rw [sum_set_of_lt _ _ _ hkey', hmax,
      sum_posClip_update _ _ _ _ hkey,
      posClip_eq_self (by have := hbef key; linarith),
      posClip_eq_self (hbef key)]
    linarith

theorem sprint_inv_fallback (times0 : List ℚ) (st : SprintState) (key : ℕ)
    (v : ℚ) (hkey : key < times0.length) (hv : 0 ≤ v) (h : SprintInv times0 st) :
    SprintInv times0 ⟨st.adj, st.beforeRest,
      Function.update st.afterRest key (st.afterRest key + v)⟩ := by
  obtain ⟨hlen, hbef, haft, hle, hm⟩ := h
  refine ⟨hlen, hbef, ?_, hle, ?_⟩
  · intro i
    rcases Decidable.em (i = key) with hi | hi
    · simp [Function.update_apply, hi]
      have := haft key
      linarith
    · simp [Function.update_apply, hi, haft i]
  · rw [sum_posClip_update _ _ _ _ hkey,
      posClip_eq_self (by have := haft key; linarith),
      posClip_eq_self (haft key)]
    linarith

theorem sprintStep_inv (thr ms ty : ℚ) (times0 : List ℚ) (k : ℕ)
    (hk : k*4+4 < times0.length) (st : SprintState) (h : SprintInv times0 st) :
    SprintInv times0 (sprintBoundaryStep thr ms ty st k) := by
  simp only [sprintBoundaryStep]
  rcases Decidable.em (st.adj.getD (k*4+3+1) 0 ≤ st.adj.getD (k*4+3) 0) with hc | hc
  · rw [if_pos hc, if_pos rfl]
    rcases Decidable.em (thr ≤ st.adj.getD (k*4+3) 0) with ht | ht
    · rw [if_pos ht]
      rcases Decidable.em
          ((8:ℚ) ≤ max 0 (min (st.adj.getD (k*4+3) 0 - ty)
            (st.adj.getD (k*4+3) 0 - ms))) with hr | hr
      · rw [if_pos hr]
        have hmin : (8:ℚ) ≤ min (st.adj.getD (k*4+3) 0 - ty)
            (st.adj.getD (k*4+3) 0 - ms) := by
          rcases le_max_iff.mp hr with h8 | h8
          · linarith
          · exact h8
        have hform : max 0 (min (st.adj.getD (k*4+3) 0 - ty)
            (st.adj.getD (k*4+3) 0 - ms)) ≤ st.adj.getD (k*4+3) 0 - ms := by
          rw [max_eq_right (by linarith)]
          exact min_le_right _ _
        exact sprint_inv_extract_after times0 st (k*4+3) _ ms (by omega) hr
          (by linarith) h
      · rw [if_neg hr]
        split
        case isTrue hfb =>
          exact sprint_inv_fallback times0 st (k*4+3) _ (by omega)
            (le_max_left _ _) h
        case isFalse => exact h
    · rw [if_neg ht, if_neg (by norm_num : ¬ (8:ℚ) ≤ 0)]
      split
      case isTrue hfb =>
        exact sprint_inv_fallback times0 st (k*4+3) _ (by omega)
          (le_max_left _ _) h
      case isFalse => exact h
  · rw [if_neg hc, if_neg (by omega : ¬ k*4+3+1 = k*4+3)]
    rcases Decidable.em (thr ≤ st.adj.getD (k*4+3+1) 0) with ht | ht
    · rw [if_pos ht]
      rcases Decidable.em
          ((8:ℚ) ≤ max 0 (min (st.adj.getD (k*4+3+1) 0 - ty)
            (st.adj.getD (k*4+3+1) 0 - ms))) with hr | hr
      · rw [if_pos hr]
        have hmin : (8:ℚ) ≤ min (st.adj.getD (k*4+3+1) 0 - ty)
            (st.adj.getD (k*4+3+1) 0 - ms) := by
          rcases le_max_iff.mp hr with h8 | h8
          · linarith
          · exact h8
        have hform : max 0 (min (st.adj.getD (k*4+3+1) 0 - ty)
            (st.adj.getD (k*4+3+1) 0 - ms)) ≤ st.adj.getD (k*4+3+1) 0 - ms := by
          rw [max_eq_right (by linarith)]
          exact min_le_right _ _
        exact sprint_inv_extract_before times0 st (k*4+3+1) _ ms (by omega) hr
          (by linarith) h
      · rw [if_neg hr]
        split
        case isTrue hfb =>
          exact sprint_inv_fallback times0 st (k*4+3) _ (by omega)
            (le_max_left _ _) h
        case isFalse => exact h
    · rw [if_neg ht, if_neg (by norm_num : ¬ (8:ℚ) ≤ 0)]
      split
      case isTrue hfb =>
        exact sprint_inv_fallback times0 st (k*4+3) _ (by omega)
          (le_max_left _ _) h
      case isFalse => exact h

theorem sprint_fold_inv (thr ms ty : ℚ) (times0 : List ℚ) :
    SprintInv times0
      ((List.range (times0.length / 4 - 1)).foldl
        (sprintBoundaryStep thr ms ty) ⟨times0, fun _ => 0, fun _ => 0⟩) := by
  apply foldl_inv
  · refine ⟨rfl, fun i => le_refl 0, fun i => le_refl 0, fun i => le_refl _, ?_⟩
    simp [posClip]
  · intro st k hkmem hP
    have hk : k < times0.length / 4 - 1 := List.mem_range.mp hkmem
    have hdiv : times0.length / 4 * 4 ≤ times0.length := Nat.div_mul_le_self _ _
    exact sprintStep_inv thr ms ty times0 k (by omega) st hP

/-! ## Structure of `add_sprint_rest_segments` -/

theorem mem_activeOf_pos {segs : List Seg} {s : Seg} (hs : s ∈ activeOf segs) :
    0 < s.distance := by
  simp only [activeOf, List.mem_filter] at hs
  exact of_decide_eq_true hs.2

theorem mem_zip_active_pos {segs : List Seg} {ts : List ℚ}
    (pr : Seg × ℚ) (hpr : pr ∈ (activeOf segs).zip ts) : 0 < pr.1.distance := by
  obtain ⟨a, b⟩ := pr
  exact mem_activeOf_pos (List.of_mem_zip hpr).1

/-- The frame property of the sprint-rest repair: the output's active rows are
exactly the input's active rows in order, with times replaced by a pointwise
smaller-or-equal list, and every non-active output row is a synthesized rest
row with `DISTANCE = STROKES = SWIM_TYPE = 0`. -/
theorem add_sprint_frame (segs : List Seg) :
    ∃ ts : List ℚ,
      ts.length = (activeOf segs).length ∧
      (∀ i, ts.getD i 0 ≤ ((activeOf segs).map Seg.time).getD i 0) ∧
      (add_sprint_rest_segments segs).filter (fun s => 0 < s.distance) =
        List.zipWith (fun b t => { b with time := t }) (activeOf segs) ts ∧
      (∀ r ∈ add_sprint_rest_segments segs, ¬(0 < r.distance) →
        r.distance = 0 ∧ r.strokes = 0 ∧ r.swimType = 0) := by
  have hactive_case :
      ∀ out : List Seg, out = activeOf segs →
        ∃ ts : List ℚ,
          ts.length = (activeOf segs).length ∧
          (∀ i, ts.getD i 0 ≤ ((activeOf segs).map Seg.time).getD i 0) ∧
          out.filter (fun s => 0 < s.distance) =
            List.zipWith (fun b t => { b with time := t }) (activeOf segs) ts ∧
          (∀ r ∈ out, ¬(0 < r.distance) →
            r.distance = 0 ∧ r.strokes = 0 ∧ r.swimType = 0) := by
    intro out hout
    subst hout
    refine ⟨(activeOf segs).map Seg.time, by simp, fun i => le_refl _, ?_, ?_⟩
    · rw [List.filter_eq_self.mpr, zipWith_setTime_self]
      intro a ha
      exact decide_eq_true (mem_activeOf_pos ha)
    · intro r hr hrd
      exact absurd (mem_activeOf_pos hr) hrd
  simp only [add_sprint_rest_segments]
  split
  case isTrue => exact hactive_case _ rfl
  case isFalse h4 =>
    split
    case isTrue => exact hactive_case _ rfl
    case isFalse href =>
      have hinv := sprint_fold_inv
        (longThreshold (typicalLengthTime
          (((activeOf segs).map Seg.time).filter (fun t => 0 < t))))
        (max 8 (typicalLengthTime
          (((activeOf segs).map Seg.time).filter (fun t => 0 < t)) * (9/20)))
        (typicalLengthTime
          (((activeOf segs).map Seg.time).filter (fun t => 0 < t)))
        ((activeOf segs).map Seg.time)
      simp only [List.length_map] at hinv
      obtain ⟨hlen, hbefn, haftn, hle, hm⟩ := hinv
      refine ⟨_, by rw [hlen, List.length_map], hle, ?_, ?_⟩
      · rw [sprintEmit_filter _ _ _ _ (fun pr hpr => mem_zip_active_pos pr hpr),
          zipWith_eq_map_zip]
      · exact sprintEmit_restRows _ _ _ _
          (fun pr hpr => mem_zip_active_pos pr hpr)

theorem sumDist_activeOf (segs : List Seg) (h : ∀ s ∈ segs, 0 ≤ s.distance) :
    sumDist (activeOf segs) = sumDist segs := by
  induction segs with
  | nil => rfl
  | cons s rest ih =>
      have hs : 0 ≤ s.distance := h s (by simp)
      have ih' := ih (fun x hx => h x (by simp [hx]))
      simp only [activeOf, List.filter_cons]
      split
      case isTrue =>
        rw [sumDist_cons]
        show s.distance + sumDist (activeOf rest) = _
        rw [ih', sumDist_cons]
      case isFalse hneg =>
        have hz : s.distance = 0 := by
          simp only [decide_eq_true_eq] at hneg
          linarith
        show sumDist (activeOf rest) = _
        rw [ih', sumDist_cons, hz, zero_add]

theorem sprintEmit_state_sumDist (active : List Seg) (st : SprintState)
    (hlen : st.adj.length = active.length) :
    sumDist (sprintEmit st.beforeRest st.afterRest 0 (active.zip st.adj)) =
      sumDist active := by
  rw [sprintEmit_sumDist]
  have h1 : ((active.zip st.adj).map (fun pr => pr.1.distance)) =
      active.map Seg.distance := by
    rw [show (fun pr : Seg × ℚ => pr.1.distance) =
      Seg.distance ∘ Prod.fst from rfl]
    rw [← List.map_map, zip_map_fst _ _ hlen.symm]
  rw [h1]
  rfl

theorem sprintEmit_state_sumTime (active : List Seg) (st : SprintState)
    (hlen : st.adj.length = active.length)
    (hm : (active.map Seg.time).sum ≤ st.adj.sum +
      (∑ i ∈ Finset.range active.length, posClip (st.beforeRest i) +
        ∑ i ∈ Finset.range active.length, posClip (st.afterRest i))) :
    (active.map Seg.time).sum ≤
      sumTime (sprintEmit st.beforeRest st.afterRest 0 (active.zip st.adj)) := by
  rw [sprintEmit_sumTime, zip_map_snd _ _ hlen.symm, List.length_zip, hlen,
    min_self, Finset.sum_add_distrib]
  simp only [Nat.zero_add]
  linarith

theorem add_sprint_sumDist (segs : List Seg)
    (h : ∀ s ∈ segs, 0 ≤ s.distance) :
    sumDist (add_sprint_rest_segments segs) = sumDist segs := by
  have hbase := sumDist_activeOf segs h
  simp only [add_sprint_rest_segments]
  split
  case isTrue => exact hbase
  case isFalse h4 =>
    split
    case isTrue => exact hbase
    case isFalse href =>
      obtain ⟨hlen, -, -, -, -⟩ := sprint_fold_inv
        (longThreshold (typicalLengthTime
          (((activeOf segs).map Seg.time).filter (fun t => 0 < t))))
        (max 8 (typicalLengthTime
          (((activeOf segs).map Seg.time).filter (fun t => 0 < t)) * (9/20)))
        (typicalLengthTime
          (((activeOf segs).map Seg.time).filter (fun t => 0 < t)))
        ((activeOf segs).map Seg.time)
      rw [List.length_map] at hlen
      rw [sprintEmit_state_sumDist _ _ hlen]
      exact hbase

theorem add_sprint_sumTime_ge (segs : List Seg) :
    sumTime (activeOf segs) ≤ sumTime (add_sprint_rest_segments segs) := by
  simp only [add_sprint_rest_segments]
  split
  case isTrue => exact le_refl _
  case isFalse h4 =>
    split
    case isTrue => exact le_refl _
    case isFalse href =>
      obtain ⟨hlen, -, -, -, hm⟩ := sprint_fold_inv
        (longThreshold (typicalLengthTime
          (((activeOf segs).map Seg.time).filter (fun t => 0 < t))))
        (max 8 (typicalLengthTime
          (((activeOf segs).map Seg.time).filter (fun t => 0 < t)) * (9/20)))
        (typicalLengthTime
          (((activeOf segs).map Seg.time).filter (fun t => 0 < t)))
        ((activeOf segs).map Seg.time)
      rw [List.length_map] at hlen
      simp only [List.length_map] at hm
      exact sprintEmit_state_sumTime (activeOf segs) _ hlen hm

/-! ## Claim C1 -/

/-- **C1, counterexample.**  The repair engine does not conserve total
distance: on `[{time:90,distance:25,strokes:30}, {time:28,distance:25} ×3]`
with pool length 25 the collapsed-start repair fires and the pipeline output's
total distance is 150 m whereas the input's is 100 m. -/
theorem repair_engine_distance_not_conserved :
    sumDist (repair_pipeline
        [⟨90,25,30,2⟩, ⟨28,25,16,2⟩, ⟨28,25,16,2⟩, ⟨28,25,16,2⟩] 25 none) = 150 ∧
    sumDist [⟨90,25,30,2⟩, ⟨28,25,16,2⟩, ⟨28,25,16,2⟩, ⟨28,25,16,2⟩] = 100 := by
  have h1 : fix_collapsed_start_lengths
      [⟨90,25,30,2⟩, ⟨28,25,16,2⟩, ⟨28,25,16,2⟩, ⟨28,25,16,2⟩] 25 =
      ([⟨30,25,10,2⟩, ⟨30,25,10,2⟩, ⟨30,25,10,2⟩,
        ⟨28,25,16,2⟩, ⟨28,25,16,2⟩, ⟨28,25,16,2⟩], true) := by
    norm_num [fix_collapsed_start_lengths, activeOf, comparisonWindow,
      comparisonTimes, inflatedThreshold, median, quantileLinear, collapsedSplit,
      collapsedRows, firstActiveIdx, List.findIdx, List.findIdx.go,
      List.insertionSort, List.orderedInsert, pyRound, List.filter]
    rw [if_neg (by simp), if_neg (by simp)]
  have hdet : detect_sprint_session
      [⟨30,25,10,2⟩, ⟨30,25,10,2⟩, ⟨30,25,10,2⟩,
        ⟨28,25,16,2⟩, ⟨28,25,16,2⟩, ⟨28,25,16,2⟩] none = false := by
    norm_num [detect_sprint_session, activeOf, List.filter]
  constructor
  · simp only [repair_pipeline, h1]
    rw [hdet]
    norm_num [sumDist]
  · norm_num [sumDist]

/-- **C1, amended.**  Conservation as the code actually guarantees it:
the collapsed-start repair conserves total time exactly; when it fires it
adds exactly `2·D` (twice the first active segment's distance) to total
distance; the sprint-rest repair conserves total distance (for nonnegative
input distances) but drops the input's zero-distance rows, and its output's
total time is never less than the total time of the input's *active*
segments (boundary extraction redistributes time and the per-block fallback
only adds rest). -/
theorem repair_engine_conservation_amended :
    (∀ (segs : List Seg) (pool : ℚ),
      sumTime (fix_collapsed_start_lengths segs pool).1 = sumTime segs) ∧
    (∀ (segs : List Seg) (pool : ℚ),
      (fix_collapsed_start_lengths segs pool).2 = true →
      sumDist (fix_collapsed_start_lengths segs pool).1 =
        sumDist segs + 2 * (activeOf segs).headI.distance) ∧
    (∀ segs : List Seg, (∀ s ∈ segs, 0 ≤ s.distance) →
      sumDist (add_sprint_rest_segments segs) = sumDist segs) ∧
    (∀ segs : List Seg,
      sumTime (activeOf segs) ≤ sumTime (add_sprint_rest_segments segs)) :=
  ⟨sumTime_fix, sumDist_fix_fired, add_sprint_sumDist, add_sprint_sumTime_ge⟩

/-- Witness for the amended C1: on the firing example the repaired total
distance is the input total plus twice the first active distance, and on a
nonnegative-distance sprint input the rest repair conserves total distance. -/
theorem repair_engine_conservation_amended_witness :
    sumDist (fix_collapsed_start_lengths
        [⟨90,25,30,2⟩, ⟨28,25,16,2⟩, ⟨28,25,16,2⟩, ⟨28,25,16,2⟩] 25).1 =
      sumDist [⟨90,25,30,2⟩, ⟨28,25,16,2⟩, ⟨28,25,16,2⟩, ⟨28,25,16,2⟩] +
        2 * (activeOf
          [⟨90,25,30,2⟩, ⟨28,25,16,2⟩, ⟨28,25,16,2⟩, ⟨28,25,16,2⟩]).headI.distance ∧
    sumDist (add_sprint_rest_segments [⟨28,25,16,2⟩, ⟨50,0,0,0⟩]) =
      sumDist [⟨28,25,16,2⟩, ⟨50,0,0,0⟩] := by
  constructor
  · apply repair_engine_conservation_amended.2.1
    norm_num [fix_collapsed_start_lengths, activeOf, comparisonWindow,
      comparisonTimes, inflatedThreshold, median, quantileLinear, collapsedSplit,
      collapsedRows, firstActiveIdx, List.findIdx, List.findIdx.go,
      List.insertionSort, List.orderedInsert, pyRound, List.filter]
    rw [if_neg (by simp), if_neg (by simp)]
  · apply repair_engine_conservation_amended.2.2.1
    intro s hs
    rcases List.mem_cons.mp hs with h | h
    · subst h; norm_num
    · simp only [List.mem_singleton] at h
      subst h; norm_num

/-! ## Claim C9 -/

/-- **C9.**  With fewer than 4 active segments the whole repair pipeline
returns its input unchanged (the collapsed-start repair skips, and sprint
detection — which needs ≥ 8 active segments — returns false, so the
sprint-rest repair never runs); and neither repair removes an original active
segment: the collapsed-start repair never decreases the active-segment count
(it only splits one segment into three) and the sprint-rest repair preserves
it exactly (it only adjusts times and inserts rest rows). -/
theorem repairs_skip_and_never_remove_actives :
    (∀ (segs : List Seg) (pool : ℚ) (wt : Option ℚ),
      (activeOf segs).length < 4 → repair_pipeline segs pool wt = segs) ∧
    (∀ (segs : List Seg) (pool : ℚ),
      (activeOf segs).length ≤
        (activeOf (fix_collapsed_start_lengths segs pool).1).length) ∧
    (∀ segs : List Seg,
      (activeOf (add_sprint_rest_segments segs)).length =
        (activeOf segs).length) := by
  refine ⟨?_, ?_, ?_⟩
  · intro segs pool wt h
    have hfix : fix_collapsed_start_lengths segs pool = (segs, false) := by
      unfold fix_collapsed_start_lengths
      rw [if_pos h]
    have hdet : detect_sprint_session segs wt = false := by
      simp only [detect_sprint_session]
      rw [if_pos (Or.inl (by omega))]
    simp only [repair_pipeline, hfix]
    rw [hdet]
    simp
  · intro segs pool
    rcases fix_result segs pool with h' | h'
    · rw [h']
    · obtain ⟨h1, h4, hD0, hD1, hct, hT⟩ := fix_fired_spec segs pool (by rw [h'])
      rw [h1, collapsedSplit_eq segs h4, activeOf_fired segs hD0]
      obtain ⟨-, -, -, hdecomp⟩ :=
        firstActive_spec segs (activeOf_nonempty_of_four h4)
      rw [hdecomp]
      simp [splitTripleOf]
  · intro segs
    obtain ⟨ts, hts, -, hfilter, -⟩ := add_sprint_frame segs
    show ((add_sprint_rest_segments segs).filter (fun s => 0 < s.distance)).length = _
    rw [hfilter, List.length_zipWith, hts, min_self]

/-- Witness for C9: a list with one active segment and one rest row passes
through the pipeline unchanged. -/
theorem repairs_skip_and_never_remove_actives_witness :
    repair_pipeline [⟨28,25,16,2⟩, ⟨50,0,0,0⟩] 25 none =
      [⟨28,25,16,2⟩, ⟨50,0,0,0⟩] :=
  repairs_skip_and_never_remove_actives.1 [⟨28,25,16,2⟩, ⟨50,0,0,0⟩] 25 none
    (by norm_num [activeOf, List.filter])

/-! ## Claim C10 -/

/-- **C10.**  The sprint-rest repair's output consists exactly of the input's
active segments, in order and with times possibly reduced (never increased),
interleaved with synthesized rest rows having
`DISTANCE = 0`, `STROKES = 0` and `SWIM_TYPE = 0`; no output row derives from
an input zero-distance (rest/pause) row. -/
theorem sprint_rest_output_structure (segs : List Seg) :
    ∃ ts : List ℚ,
      ts.length = (activeOf segs).length ∧
      (∀ i, ts.getD i 0 ≤ ((activeOf segs).map Seg.time).getD i 0) ∧
      (add_sprint_rest_segments segs).filter (fun s => 0 < s.distance) =
        List.zipWith (fun b t => { b with time := t }) (activeOf segs) ts ∧
      (∀ r ∈ add_sprint_rest_segments segs, ¬(0 < r.distance) →
        r.distance = 0 ∧ r.strokes = 0 ∧ r.swimType = 0) :=
  add_sprint_frame segs

/-! ## Claim C3 -/

/-- **C3, counterexample.**  Eight active segments all with `TIME = 0` and a
known workout duration of 1000 s: the claim's characterization holds via its
disjunct (ii) (total active swim time 0 is at least 120 s less than 1000,
with 2 blocks), but `detect_sprint_session` returns `false`, because the code
returns early when no active segment has positive time. -/
theorem sprint_detection_spec_mismatch :
    detect_sprint_session
      [⟨0,25,16,2⟩, ⟨0,25,16,2⟩, ⟨0,25,16,2⟩, ⟨0,25,16,2⟩,
       ⟨0,25,16,2⟩, ⟨0,25,16,2⟩, ⟨0,25,16,2⟩, ⟨0,25,16,2⟩] (some 1000) = false ∧
    sprintSessionSpec
      [⟨0,25,16,2⟩, ⟨0,25,16,2⟩, ⟨0,25,16,2⟩, ⟨0,25,16,2⟩,
       ⟨0,25,16,2⟩, ⟨0,25,16,2⟩, ⟨0,25,16,2⟩, ⟨0,25,16,2⟩] (some 1000) = true := by
  constructor
  · norm_num [detect_sprint_session, activeOf, List.filter]
  · norm_num [sprintSessionSpec, activeOf, List.filter, typicalLengthTime,
      quantileLinear, median, longThreshold, List.insertionSort,
      List.orderedInsert, List.range, List.range.loop, sumTime]

/-- **C3, amended.**  `detect_sprint_session` returns `true` iff the claim's
characterization holds *and additionally at least one active segment has
positive time* (the code returns `false` early when the positive-time
reference set is empty, even when disjunct (ii) would apply). -/
theorem sprint_detection_characterization (segs : List Seg) (wt : Option ℚ) :
    detect_sprint_session segs wt =
      (sprintSessionSpec segs wt &&
        (activeOf segs).any (fun s => decide (0 < s.time))) := by
  by_cases hguard :
      (activeOf segs).length < 8 ∨ (activeOf segs).length % 4 ≠ 0
  · simp only [detect_sprint_session, sprintSessionSpec]
    rw [if_pos hguard]
    rcases hguard with h | h
    · rw [decide_eq_false (by omega : ¬ 8 ≤ (activeOf segs).length)]
      simp
    · rw [decide_eq_false h]
      simp
  · have hguard' := hguard
    push_neg at hguard'
    obtain ⟨h8, hmod⟩ := hguard'
    simp only [detect_sprint_session, sprintSessionSpec]
    rw [if_neg hguard]
    by_cases href : ((activeOf segs).map Seg.time).filter (fun t => 0 < t) = []
    · rw [if_pos href]
      have hany : (activeOf segs).any (fun s => decide (0 < s.time)) = false := by
        rw [List.any_eq_false]
        intro s hs
        have hmem : Seg.time s ∈ (activeOf segs).map Seg.time :=
          List.mem_map_of_mem Seg.time hs
        have := List.filter_eq_nil_iff.mp href _ hmem
        simpa using this
      rw [hany]
      simp
    · rw [if_neg href]
      have hany : (activeOf segs).any (fun s => decide (0 < s.time)) = true := by
        obtain ⟨t, ht⟩ := List.exists_mem_of_ne_nil _ href
        obtain ⟨htmem, htpos⟩ := List.mem_filter.mp ht
        obtain ⟨s, hs, hst⟩ := List.mem_map.mp htmem
        rw [List.any_eq_true]
        exact ⟨s, hs, by rw [hst]; exact htpos⟩
      rw [hany]
      rw [decide_eq_true (by omega : 8 ≤ (activeOf segs).length),
        decide_eq_true hmod]
      simp only [Bool.true_and, Bool.and_true]
      by_cases hcond :
          max 1 (Int.toNat ⌊(((activeOf segs).length / 4 - 1 : ℕ) : ℚ) * (7/20)⌋) ≤
            ((List.range ((activeOf segs).length / 4 - 1)).filter (fun blockIdx =>
              longThreshold (typicalLengthTime
                (((activeOf segs).map Seg.time).filter (fun t => 0 < t))) ≤
                max (((activeOf segs).map Seg.time).getD (blockIdx*4+3) 0)
                  (((activeOf segs).map Seg.time).getD (blockIdx*4+4) 0))).length
      · rw [if_pos hcond, decide_eq_true hcond]
        simp
      · rw [if_neg hcond, decide_eq_false hcond]
        simp only [Bool.false_or]

/-! ## Claim C5 -/

/-- **C5, counterexample.**  The swimming analyzer does not correct negative
heart rates by adding 255: it takes the absolute value, so a raw `-1` becomes
`1`, not `254` (and nothing is discarded). -/
theorem hr_swimming_abs_not_plus255 :
    (clean_hr_swimming [⟨0, -1⟩]).map Sample.hr = [1] ∧
    (clean_hr_swimming [⟨0, -1⟩]).map Sample.hr ≠ [254] := by
  constructor
  · simp [clean_hr_swimming]
  · simp [clean_hr_swimming]

/-- The `+255`-when-negative correction followed by the positivity filter,
as a per-sample filter-map: a raw value `v` is corrected to `v + 255` when
negative, and the row is kept iff the corrected value is positive.  This is
the cleaning step shared by the GPS-cycling and strength analyzers. -/
theorem hr_plus255_filterMap (l : List Sample) :
    ((l.map (fun s => if s.hr < 0 then { s with hr := s.hr + 255 } else s)).filter
        (fun s => 0 < s.hr)) =
      l.filterMap (fun s =>
        if 0 < (if s.hr < 0 then s.hr + 255 else s.hr)
        then some { s with hr := if s.hr < 0 then s.hr + 255 else s.hr }
        else none) := by
  induction l with
  | nil => rfl
  | cons s t ih =>
      obtain ⟨ts, hr⟩ := s
      simp only [List.map_cons, List.filter_cons, List.filterMap_cons] at ih ⊢
      by_cases hneg : hr < 0
      · by_cases hpos : 0 < hr + 255
        · simp [hneg, hpos] at ih ⊢
          exact ih
        · simp [hneg, hpos] at ih ⊢
          exact ih
      · by_cases hpos : 0 < hr
        · simp [hneg, hpos] at ih ⊢
          exact ih
        · simp [hneg, hpos] at ih ⊢
          exact ih

/-- **C5, amended.**  Heart-rate cleaning per workout type: the GPS-cycling
and strength analyzers each correct a raw value `v` to `v + 255` when
negative and keep the row iff the corrected value is positive (so `-1 → 254`
kept, `-255 → 0` discarded); the swimming analyzer instead takes the absolute
value and keeps every row; the indoor-cycling analyzer takes the absolute
value and discards rows with corrected value `≤ 0`. -/
theorem hr_correction_amended :
    (∀ l : List Sample, clean_hr_cycling l =
      l.filterMap (fun s =>
        if 0 < (if s.hr < 0 then s.hr + 255 else s.hr)
        then some { s with hr := if s.hr < 0 then s.hr + 255 else s.hr }
        else none)) ∧
    (∀ l : List Sample, clean_hr_strength l =
      l.filterMap (fun s =>
        if 0 < (if s.hr < 0 then s.hr + 255 else s.hr)
        then some { s with hr := if s.hr < 0 then s.hr + 255 else s.hr }
        else none)) ∧
    (∀ l : List Sample, (clean_hr_swimming l).length = l.length) ∧
    (∀ l : List Sample,
      (clean_hr_swimming l).all (fun s => decide (0 ≤ s.hr)) = true) ∧
    (∀ l : List Sample,
      (clean_hr_indoor l).all (fun s => decide (0 < s.hr)) = true) ∧
    ((clean_hr_cycling [⟨0, -1⟩]).map Sample.hr = [254]) ∧
    ((clean_hr_cycling [⟨0, -255⟩]).map Sample.hr = ([] : List ℤ)) ∧
    ((clean_hr_strength [⟨0, -1⟩]).map Sample.hr = [254]) ∧
    ((clean_hr_strength [⟨0, -255⟩]).map Sample.hr = ([] : List ℤ)) := by
  refine ⟨?_, ?_, ?_, ?_, ?_, ?_, ?_, ?_, ?_⟩
  · intro l
    simp only [clean_hr_cycling]
    exact hr_plus255_filterMap l
  · intro l
    simp only [clean_hr_strength]
    exact hr_plus255_filterMap l
  · intro l
    simp [clean_hr_swimming]
  · intro l
    rw [List.all_eq_true]
    intro s hs
    obtain ⟨x, -, hx⟩ := List.mem_map.mp hs
    rw [← hx]
    simp [abs_nonneg]
  · intro l
    rw [List.all_eq_true]
    intro s hs
    simp only [clean_hr_indoor] at hs
    exact (List.mem_filter.mp hs).2
  · simp [clean_hr_cycling]
  · simp [clean_hr_cycling]
  · simp [clean_hr_strength]
  · simp [clean_hr_strength]

/-! ## Geometry lemmas for the GPS derivation -/

theorem atan2_nonneg {y x : ℝ} (hy : 0 ≤ y) (hx : 0 ≤ x) : 0 ≤ atan2 y x := by
  unfold atan2
  split
  case isTrue h =>
    calc (0:ℝ) = Real.arctan 0 := Real.arctan_zero.symm
      _ ≤ Real.arctan (y / x) :=
        Real.arctan_strictMono.monotone (div_nonneg hy hx)
  case isFalse h1 =>
    split
    case isTrue h2 => exact absurd h2.1 (not_lt.mpr hx)
    case isFalse h2 =>
      split
      case isTrue h3 => exact absurd h3 (not_lt.mpr hx)
      case isFalse h3 =>
        split
        case isTrue h4 => positivity
        case isFalse h4 =>
          split
          case isTrue h5 => exact absurd h5 (not_lt.mpr hy)
          case isFalse h5 => exact le_refl 0

theorem haversine_nonneg (lat1 lon1 lat2 lon2 : ℝ) :
    0 ≤ haversine_m lat1 lon1 lat2 lon2 := by
  simp only [haversine_m]
  exact mul_nonneg (by norm_num)
    (mul_nonneg (by norm_num)
      (atan2_nonneg (Real.sqrt_nonneg _) (Real.sqrt_nonneg _)))

theorem step_list_nonneg :
    ∀ (p : TrackPt) (rest : List TrackPt) (pr : ℝ × ℝ),
      pr ∈ step_list p rest → 0 ≤ pr.1 ∧ 0 ≤ pr.2
  | _, [], pr, hpr => by simp [step_list] at hpr
  | p, q :: rest, pr, hpr => by
      simp only [step_list] at hpr
      rcases List.mem_cons.mp hpr with h | h
      · subst h
        refine ⟨haversine_nonneg _ _ _ _, ?_⟩
        dsimp only
        split
        case isTrue hdt =>
          exact div_nonneg (haversine_nonneg _ _ _ _) (le_of_lt hdt)
        case isFalse => exact le_refl 0
      · exact step_list_nonneg q rest pr h

theorem derive_speeds_nonneg (pts : List TrackPt) (i : ℕ) :
    0 ≤ (derive_speeds pts).getD i 0 := by
  cases pts with
  | nil => simp [derive_speeds]
  | cons p rest =>
      apply getD_nonneg_of_forall
      intro x hx
      simp only [derive_speeds] at hx
      rcases List.mem_cons.mp hx with h | h
      · rw [h]
      · obtain ⟨pr, hpr, hx2⟩ := List.mem_map.mp h
        rw [← hx2]
        exact (step_list_nonneg p rest pr hpr).2

/-! ## Claim C6 -/

/-- **C6, counterexample.**  GPS-cycling record speeds are *not* clamped to
`[0, 65.535]`: two antipodal points one second apart produce a derived (and
emitted) speed of `6371000·π` m/s, far above 65.535. -/
theorem cycling_record_speed_exceeds_fit_max :
    (65535/1000 : ℝ) <
      (cycling_record_speeds [⟨0, 0, 0⟩, ⟨1, 0, 180⟩]).getD 1 0 := by
  have hhav : haversine_m 0 0 0 180 = 6371000 * Real.pi := by
    simp only [haversine_m, radians, atan2]
    norm_num [Real.sin_zero, Real.cos_zero, Real.sin_pi_div_two, Real.sqrt_one,
      Real.sqrt_zero]
    ring
  have hspeed : (cycling_record_speeds [⟨0, 0, 0⟩, ⟨1, 0, 180⟩]).getD 1 0 =
      haversine_m 0 0 0 180 / (1 - 0) := by
    simp only [cycling_record_speeds, derive_speeds, step_list]
    norm_num
  rw [hspeed, hhav]
  have hpi := Real.pi_gt_three
  rw [show (1:ℝ) - 0 = 1 from by norm_num, div_one]
  nlinarith

/-- **C6, amended.**  Only the indoor-cycling emitter clamps speed into
`[0, 65.535]`; the GPS-cycling emitter writes the derived speed unclamped
(nonnegative by construction but unbounded above), and the swimming emitter
writes the raw `SPEED/10` value unclamped whenever it is positive. -/
theorem record_speed_clamping_amended :
    (∀ s : ℚ, 0 ≤ indoorRecordSpeed s ∧ indoorRecordSpeed s ≤ MAX_FIT_SPEED_MS) ∧
    (∀ (pts : List TrackPt) (i : ℕ), 0 ≤ (cycling_record_speeds pts).getD i 0) ∧
    (∀ (v : ℤ) (q : ℚ), swimRecordSpeed v = some q → 0 < q) := by
  refine ⟨?_, ?_, ?_⟩
  · intro s
    refine ⟨le_max_left _ _, ?_⟩
    unfold indoorRecordSpeed
    exact max_le (by norm_num [MAX_FIT_SPEED_MS]) (min_le_right _ _)
  · intro pts i
    exact derive_speeds_nonneg pts i
  · intro v q h
    unfold swimRecordSpeed at h
    split at h
    case isTrue hc =>
      rw [Option.some_inj] at h
      rw [← h]
      exact hc
    case isFalse => exact absurd h (by simp)

/-- Witness for the amended C6: the swimming emitter writes `SPEED = 5`
(0.5 m/s) as a positive record speed. -/
theorem record_speed_clamping_amended_witness :
    swimRecordSpeed 5 = some (1/2) ∧ (0:ℚ) < 1/2 := by
  have h1 : swimRecordSpeed 5 = some (1/2) := by norm_num [swimRecordSpeed]
  exact ⟨h1, record_speed_clamping_amended.2.2 5 (1/2) h1⟩

/-! ## Claim C7 -/

theorem chain'_le_scanl_add :
    ∀ (l : List ℝ) (a : ℝ), (∀ x ∈ l, 0 ≤ x) →
      List.Chain' (· ≤ ·) (List.scanl (· + ·) a l)
  | [], a, _ => by simp
  | x :: l, a, h => by
      have hx : 0 ≤ x := h x (by simp)
      have ih := chain'_le_scanl_add l (a + x) (fun y hy => h y (by simp [hy]))
      rw [List.scanl_cons]
      cases l with
      | nil =>
          simp only [List.scanl_nil, List.singleton_append]
          exact List.chain'_pair.mpr (by linarith)
      | cons y t =>
          rw [List.scanl_cons] at ih ⊢
          simp only [List.singleton_append] at ih ⊢
          exact List.chain'_cons.mpr ⟨by linarith, ih⟩

theorem derive_distances_chain (pts : List TrackPt) :
    List.Chain' (· ≤ ·) (derive_distances pts) := by
  cases pts with
  | nil => simp [derive_distances]
  | cons p rest =>
      apply chain'_le_scanl_add
      intro x hx
      obtain ⟨pr, hpr, hx2⟩ := List.mem_map.mp hx
      rw [← hx2]
      exact (step_list_nonneg p rest pr hpr).1

theorem step_list_length :
    ∀ (p : TrackPt) (rest : List TrackPt),
      (step_list p rest).length = rest.length
  | _, [] => rfl
  | p, q :: rest => by
      simp only [step_list, List.length_cons]
      rw [step_list_length q rest]

theorem step_list_getD :
    ∀ (rest : List TrackPt) (p : TrackPt) (i : ℕ), i < rest.length →
      (step_list p rest).getD i (0, 0) =
        (haversine_m ((p :: rest).getD i default).lat
            ((p :: rest).getD i default).lon
            (rest.getD i default).lat (rest.getD i default).lon,
         if 0 < (rest.getD i default).timestamp -
             ((p :: rest).getD i default).timestamp
         then haversine_m ((p :: rest).getD i default).lat
             ((p :: rest).getD i default).lon
             (rest.getD i default).lat (rest.getD i default).lon /
           ((rest.getD i default).timestamp -
             ((p :: rest).getD i default).timestamp)
         else 0)
  | [], _, i, hi => absurd hi (by simp)
  | q :: rest, p, 0, _ => by simp [step_list]
  | q :: rest, p, i+1, hi => by
      simp only [step_list, List.getD_cons_succ]
      exact step_list_getD rest q i (by simpa using hi)

theorem derive_speeds_getD (pts : List TrackPt) (i : ℕ) (hi : i + 1 < pts.length) :
    (derive_speeds pts).getD (i+1) 0 =
      (if 0 < (pts.getD (i+1) default).timestamp -
          (pts.getD i default).timestamp
       then haversine_m (pts.getD i default).lat (pts.getD i default).lon
           (pts.getD (i+1) default).lat (pts.getD (i+1) default).lon /
         ((pts.getD (i+1) default).timestamp - (pts.getD i default).timestamp)
       else 0) := by
  cases pts with
  | nil => simp at hi
  | cons p rest =>
      have hi' : i < rest.length := by simpa using hi
      simp only [derive_speeds, List.getD_cons_succ]
      rw [getD_map_lt Prod.snd (step_list p rest) i
        (by rw [step_list_length]; exact hi') 0 (0, 0)]
      rw [step_list_getD rest p i hi']

/-- **C7.**  For every non-empty GPS track the derived series satisfy
`distance[0] = 0`, `speed[0] = 0`, cumulative distance is monotone
non-decreasing, and for every `i > 0` the speed is the haversine delta from
the previous point divided by the timestamp difference when that difference
is positive and 0 otherwise; an empty track raises the data error. -/
theorem gps_derivation_properties :
    parse_gpx_points [] = Except.error "No track points found in GPX file" ∧
    (∀ pts : List TrackPt, pts ≠ [] →
      (derive_distances pts).getD 0 0 = 0 ∧ (derive_speeds pts).getD 0 0 = 0) ∧
    (∀ pts : List TrackPt, List.Chain' (· ≤ ·) (derive_distances pts)) ∧
    (∀ (pts : List TrackPt) (i : ℕ), i + 1 < pts.length →
      (derive_speeds pts).getD (i+1) 0 =
        (if 0 < (pts.getD (i+1) default).timestamp -
            (pts.getD i default).timestamp
         then haversine_m (pts.getD i default).lat (pts.getD i default).lon
             (pts.getD (i+1) default).lat (pts.getD (i+1) default).lon /
           ((pts.getD (i+1) default).timestamp - (pts.getD i default).timestamp)
         else 0)) := by
  refine ⟨rfl, ?_, derive_distances_chain, derive_speeds_getD⟩
  intro pts h
  cases pts with
  | nil => exact absurd rfl h
  | cons p rest =>
      constructor
      · show (((step_list p rest).map Prod.fst).scanl (· + ·) 0).getD 0 0 = 0
        cases ((step_list p rest).map Prod.fst) with
        | nil => simp
        | cons y t => simp
      · rfl

/-- Witness for C7 on a two-point track one second apart at the same
location. -/
theorem gps_derivation_properties_witness :
    ([⟨0,0,0⟩, ⟨1,0,0⟩] : List TrackPt) ≠ [] ∧
    (derive_distances [⟨0,0,0⟩, ⟨1,0,0⟩]).getD 0 0 = 0 ∧
    (derive_speeds [⟨0,0,0⟩, ⟨1,0,0⟩]).getD 0 0 = 0 ∧
    (derive_speeds [⟨0,0,0⟩, ⟨1,0,0⟩]).getD 1 0 =
      (if 0 < (([⟨0,0,0⟩, ⟨1,0,0⟩] : List TrackPt).getD 1 default).timestamp -
          (([⟨0,0,0⟩, ⟨1,0,0⟩] : List TrackPt).getD 0 default).timestamp
       then haversine_m (([⟨0,0,0⟩, ⟨1,0,0⟩] : List TrackPt).getD 0 default).lat
           (([⟨0,0,0⟩, ⟨1,0,0⟩] : List TrackPt).getD 0 default).lon
           (([⟨0,0,0⟩, ⟨1,0,0⟩] : List TrackPt).getD 1 default).lat
           (([⟨0,0,0⟩, ⟨1,0,0⟩] : List TrackPt).getD 1 default).lon /
         ((([⟨0,0,0⟩, ⟨1,0,0⟩] : List TrackPt).getD 1 default).timestamp -
           (([⟨0,0,0⟩, ⟨1,0,0⟩] : List TrackPt).getD 0 default).timestamp)
       else 0) := by
  have hne : ([⟨0,0,0⟩, ⟨1,0,0⟩] : List TrackPt) ≠ [] := by simp
  obtain ⟨h0d, h0s⟩ := gps_derivation_properties.2.1 _ hne
  exact ⟨hne, h0d, h0s, gps_derivation_properties.2.2.2 _ 0 (by norm_num)⟩

/-! ## Claim C8 -/

theorem nearestSample_none :
    ∀ (t : ℝ) (l : List Sample), nearestSample t l = none → l = []
  | _, [], _ => rfl
  | t, s :: rest, h => by
      cases hrest : nearestSample t rest with
      | none => simp [nearestSample, hrest] at h
      | some b =>
          simp only [nearestSample, hrest] at h
          split at h <;> simp at h

theorem nearestSample_mem :
    ∀ (t : ℝ) (l : List Sample) (s : Sample),
      nearestSample t l = some s → s ∈ l
  | t, [], s, h => by simp [nearestSample] at h
  | t, a :: rest, s, h => by
      cases hrest : nearestSample t rest with
      | none =>
          simp only [nearestSample, hrest, Option.some_inj] at h
          subst h
          exact List.mem_cons_self a rest
      | some b =>
          simp only [nearestSample, hrest] at h
          split at h
          · simp only [Option.some_inj] at h
            subst h
            exact List.mem_cons_self a rest
          · simp only [Option.some_inj] at h
            subst h
            exact List.mem_cons_of_mem a (nearestSample_mem t rest b hrest)

theorem nearestSample_min :
    ∀ (t : ℝ) (l : List Sample) (s : Sample),
      nearestSample t l = some s → ∀ s' ∈ l, |t - s.ts| ≤ |t - s'.ts|
  | t, [], s, h => by simp [nearestSample] at h
  | t, a :: rest, s, h => by
      intro s' hs'
      cases hrest : nearestSample t rest with
      | none =>
          have hrest' := nearestSample_none t rest hrest
          simp only [nearestSample, hrest, Option.some_inj] at h
          subst h
          subst hrest'
          rcases List.mem_cons.mp hs' with h' | h'
          · subst h'
            exact le_refl _
          · simp at h'
      | some b =>
          have hbmin := nearestSample_min t rest b hrest
          simp only [nearestSample, hrest] at h
          split at h
          case isTrue hab =>
            simp only [Option.some_inj] at h
            subst h
            rcases List.mem_cons.mp hs' with h' | h'
            · subst h'
              exact le_refl _
            · exact le_trans hab (hbmin s' h')
          case isFalse hab =>
            simp only [Option.some_inj] at h
            subst h
            rcases List.mem_cons.mp hs' with h' | h'
            · subst h'
              exact le_of_lt (lt_of_not_le hab)
            · exact hbmin s' h'

theorem nearestSample_isSome (t : ℝ) (l : List Sample) (h : l ≠ []) :
    ∃ s, nearestSample t l = some s := by
  cases hn : nearestSample t l with
  | none => exact absurd (nearestSample_none t l hn) h
  | some s => exact ⟨s, rfl⟩

theorem attachHR_eq_some (t : ℝ) (samples : List Sample) (b : Sample)
    (hb : nearestSample t samples = some b) (h5 : |t - b.ts| ≤ 5) :
    attachHR t samples = some b.hr := by
  unfold attachHR
  rw [hb]
  show (if |t - b.ts| ≤ 5 then some b.hr else none) = some b.hr
  rw [if_pos h5]

theorem attachHR_eq_none (t : ℝ) (samples : List Sample)
    (hall : ∀ s ∈ samples, 5 < |t - s.ts|) :
    attachHR t samples = none := by
  unfold attachHR
  cases hb : nearestSample t samples with
  | none => rfl
  | some b =>
      show (if |t - b.ts| ≤ 5 then some b.hr else none) = none
      rw [if_neg (not_le.mpr (hall b (nearestSample_mem _ _ _ hb)))]

/-- **C8.**  In the GPS heart-rate merge each track point gets the heart rate
of a sample whose timestamp is nearest to the point's, provided that nearest
distance is within the 5-second tolerance; if every sample is farther than
5 seconds the heart-rate field stays unset. -/
theorem gps_hr_merge_tolerance (pts : List TrackPt) (samples : List Sample)
    (i : ℕ) (hi : i < pts.length) :
    ((∃ s ∈ samples, |(pts.getD i default).timestamp - s.ts| ≤ 5) →
      ∃ s ∈ samples,
        (mergeHR pts samples).getD i (default, none) =
          (pts.getD i default, some s.hr) ∧
        |(pts.getD i default).timestamp - s.ts| ≤ 5 ∧
        ∀ s' ∈ samples, |(pts.getD i default).timestamp - s.ts| ≤
          |(pts.getD i default).timestamp - s'.ts|) ∧
    ((∀ s ∈ samples, 5 < |(pts.getD i default).timestamp - s.ts|) →
      (mergeHR pts samples).getD i (default, none) =
        (pts.getD i default, none)) := by
  have hmerge : (mergeHR pts samples).getD i (default, none) =
      (pts.getD i default,
        attachHR (pts.getD i default).timestamp samples) := by
    simp only [mergeHR]
    exact getD_map_lt _ pts i hi _ default
  constructor
  · rintro ⟨s₀, hs₀, hs₀5⟩
    obtain ⟨b, hb⟩ :=
      nearestSample_isSome (pts.getD i default).timestamp samples
        (List.ne_nil_of_mem hs₀)
    have hbmem := nearestSample_mem _ _ _ hb
    have hbmin := nearestSample_min _ _ _ hb
    have hb5 : |(pts.getD i default).timestamp - b.ts| ≤ 5 :=
      le_trans (hbmin s₀ hs₀) hs₀5
    refine ⟨b, hbmem, ?_, hb5, hbmin⟩
    rw [hmerge, attachHR_eq_some _ _ b hb hb5]
  · intro hall
    rw [hmerge, attachHR_eq_none _ _ hall]

/-- Witness for C8: a point at `t = 100` with a sample at `t = 103`
(within tolerance) gets heart rate 140 attached; with the only sample at
`t = 110` (outside tolerance) the field stays unset. -/
theorem gps_hr_merge_tolerance_witness :
    (∃ s ∈ ([⟨103, 140⟩] : List Sample),
      (mergeHR [⟨100, 0, 0⟩] [⟨103, 140⟩]).getD 0 (default, none) =
        (⟨100, 0, 0⟩, some s.hr) ∧
      |(100:ℝ) - s.ts| ≤ 5 ∧
      ∀ s' ∈ ([⟨103, 140⟩] : List Sample),
        |(100:ℝ) - s.ts| ≤ |(100:ℝ) - s'.ts|) ∧
    (mergeHR [⟨100, 0, 0⟩] [⟨110, 140⟩]).getD 0 (default, none) =
      (⟨100, 0, 0⟩, none) := by
  constructor
  · exact (gps_hr_merge_tolerance [⟨100, 0, 0⟩] [⟨103, 140⟩] 0 (by norm_num)).1
      ⟨⟨103, 140⟩, by simp, by rw [abs_le]; constructor <;> norm_num⟩
  · exact (gps_hr_merge_tolerance [⟨100, 0, 0⟩] [⟨110, 140⟩] 0 (by norm_num)).2
      (fun s hs => by
        simp only [List.mem_singleton] at hs
        subst hs
        rw [lt_abs]
        right
        norm_num)

/-- Witness for C10 at the spec's sprint scenario (eight ~28 s lengths with
one 85 s boundary length). -/
theorem sprint_rest_output_structure_witness :
    ∃ ts : List ℚ,
      ts.length = (activeOf
        [⟨28,25,16,2⟩, ⟨28,25,16,2⟩, ⟨28,25,16,2⟩, ⟨85,25,16,2⟩,
         ⟨28,25,16,2⟩, ⟨28,25,16,2⟩, ⟨28,25,16,2⟩, ⟨28,25,16,2⟩]).length ∧
      (∀ i, ts.getD i 0 ≤ ((activeOf
        [⟨28,25,16,2⟩, ⟨28,25,16,2⟩, ⟨28,25,16,2⟩, ⟨85,25,16,2⟩,
         ⟨28,25,16,2⟩, ⟨28,25,16,2⟩, ⟨28,25,16,2⟩, ⟨28,25,16,2⟩]).map Seg.time).getD i 0) ∧
      (add_sprint_rest_segments
        [⟨28,25,16,2⟩, ⟨28,25,16,2⟩, ⟨28,25,16,2⟩, ⟨85,25,16,2⟩,
         ⟨28,25,16,2⟩, ⟨28,25,16,2⟩, ⟨28,25,16,2⟩, ⟨28,25,16,2⟩]).filter
          (fun s => 0 < s.distance) =
        List.zipWith (fun b t => { b with time := t })
          (activeOf
            [⟨28,25,16,2⟩, ⟨28,25,16,2⟩, ⟨28,25,16,2⟩, ⟨85,25,16,2⟩,
             ⟨28,25,16,2⟩, ⟨28,25,16,2⟩, ⟨28,25,16,2⟩, ⟨28,25,16,2⟩]) ts ∧
      (∀ r ∈ add_sprint_rest_segments
          [⟨28,25,16,2⟩, ⟨28,25,16,2⟩, ⟨28,25,16,2⟩, ⟨85,25,16,2⟩,
           ⟨28,25,16,2⟩, ⟨28,25,16,2⟩, ⟨28,25,16,2⟩, ⟨28,25,16,2⟩],
        ¬(0 < r.distance) →
        r.distance = 0 ∧ r.strokes = 0 ∧ r.swimType = 0) :=
  sprint_rest_output_structure
    [⟨28,25,16,2⟩, ⟨28,25,16,2⟩, ⟨28,25,16,2⟩, ⟨85,25,16,2⟩,
     ⟨28,25,16,2⟩, ⟨28,25,16,2⟩, ⟨28,25,16,2⟩, ⟨28,25,16,2⟩]
